import Mathlib

/-!
Verification of the BusTub storage-engine core (buffer pool, LRU-K replacer,
extendible hash table, B+ tree index) against its natural-language
specification.  Every definition is a shallow embedding of the corresponding
C++ source function; machine integers that never overflow in the modelled
executions are represented by `Nat`/`Int`, raw pointers by explicit ids, and
the intrusive doubly-linked lists of the replacer by explicit Lean lists.
-/

namespace BusTub

/-! ## LRU-K replacer (`src/buffer/lru_k_replacer.cpp`, `lru_k_replacer.h`)

The C++ `Node` carries `key_`, `value_` (access counter), `evictable_` and the
intrusive `prev_`/`next_` pointers.  The single circular list threaded through
the two dummy nodes is split at the dummies into its history segment and its
buffer segment; each is modelled as a Lean list with the front of the segment
first (so `dummy_history_->next_` is `hist.head?` and `dummy_buffer_->prev_`
is `hist.getLast?`, and symmetrically for the buffer segment). -/

structure RNode where
  value : Nat
  evictable : Bool
deriving DecidableEq

/-- The `entries_` unordered map, as a function. -/
def updEntry (e : Nat → Option RNode) (f : Nat) (n : RNode) : Nat → Option RNode :=
  fun x => if x = f then some n else e x

def delEntry (e : Nat → Option RNode) (f : Nat) : Nat → Option RNode :=
  fun x => if x = f then none else e x

/-- State of `LRUKReplacer`: `entries_`, the two list segments, the two
counters `curr_history_size_`/`curr_buffer_size_`, `replacer_size_`, `k_`. -/
structure LRUK where
  entries : Nat → Option RNode
  hist : List Nat
  buf : List Nat
  histSize : Nat
  bufSize : Nat
  cap : Nat
  k : Nat

def LRUK.init (cap k : Nat) : LRUK :=
  ⟨fun _ => none, [], [], 0, 0, cap, k⟩

/-- `LRUKReplacer::Size()` = `curr_history_size_ + curr_buffer_size_`. -/
def LRUK.sizeR (r : LRUK) : Nat := r.histSize + r.bufSize

/-- `LRUKReplacer::EvictInternal`: if `Size() == 0` fail; else pop the history
segment tail (`dummy_buffer_->prev_`) when `curr_history_size_ != 0`,
otherwise the buffer segment tail (`dummy_history_->prev_`); clear the victim
node's counter and evictable flag (the node stays in `entries_`).  A `none` in
the inner match corresponds to the C++ unlinking a dummy node (counters out of
sync with the lists), which cannot occur in reachable states. -/
def LRUK.evictInternal (r : LRUK) : Option (Nat × LRUK) :=
  if r.sizeR = 0 then none
  else if r.histSize ≠ 0 then
    match r.hist.getLast? with
    | none => none
    | some v => some (v, { r with hist := r.hist.dropLast, histSize := r.histSize - 1,
                                  entries := updEntry r.entries v ⟨0, false⟩ })
  else
    match r.buf.getLast? with
    | none => none
    | some v => some (v, { r with buf := r.buf.dropLast, bufSize := r.bufSize - 1,
                                  entries := updEntry r.entries v ⟨0, false⟩ })

/-- `LRUKReplacer::RecordAccess`: unknown frames get a fresh node with count 1,
not evictable, not listed.  A known frame increments its counter; if it is
evictable and the counter reached `k_`, it is unlinked (from whichever
segment) and pushed to the buffer segment front, adjusting the counters
exactly as the source does. -/
def LRUK.recordAccess (r : LRUK) (f : Nat) : LRUK :=
  match r.entries f with
  | none => { r with entries := updEntry r.entries f ⟨1, false⟩ }
  | some node =>
    let v := node.value + 1
    let r1 := { r with entries := updEntry r.entries f ⟨v, node.evictable⟩ }
    if node.evictable ∧ r.k ≤ v then
      let r2 := if v = r.k then { r1 with histSize := r1.histSize - 1 }
                else { r1 with bufSize := r1.bufSize - 1 }
      { r2 with hist := r2.hist.erase f, buf := f :: r2.buf.erase f,
                bufSize := r2.bufSize + 1 }
    else r1

/-- The `while (Size() >= replacer_size_) EvictInternal(...)` loop inside
`SetEvictable`, with fuel; each successful eviction strictly decreases
`Size()`, so fuel `Size() + 1` reproduces the C++ loop whenever
`replacer_size_ > 0` (with capacity 0 the C++ loop never terminates). -/
def LRUK.evictLoop : Nat → LRUK → LRUK
  | 0, r => r
  | fuel + 1, r =>
    if r.cap ≤ r.sizeR then
      match r.evictInternal with
      | some (_, r2) => LRUK.evictLoop fuel r2
      | none => r
    else r

/-- `LRUKReplacer::SetEvictable`: unknown frame is a no-op; evictable→not
unlinks, decrements the matching counter and clears the access counter;
not-evictable→evictable first evicts while the replacer is at capacity, then
links the frame at the front of the segment chosen by its access counter. -/
def LRUK.setEvictable (r : LRUK) (f : Nat) (b : Bool) : LRUK :=
  match r.entries f with
  | none => r
  | some node =>
    if node.evictable ∧ ¬ b then
      let r1 := if r.k ≤ node.value then { r with bufSize := r.bufSize - 1 }
                else { r with histSize := r.histSize - 1 }
      { r1 with hist := r1.hist.erase f, buf := r1.buf.erase f,
                entries := updEntry r1.entries f ⟨0, false⟩ }
    else if ¬ node.evictable ∧ b then
      let r1 := LRUK.evictLoop (r.sizeR + 1) r
      let node1 := (r1.entries f).getD node
      let r2 := { r1 with entries := updEntry r1.entries f ⟨node1.value, true⟩ }
      if r.k ≤ node1.value then { r2 with buf := f :: r2.buf, bufSize := r2.bufSize + 1 }
      else { r2 with hist := f :: r2.hist, histSize := r2.histSize + 1 }
    else r

/-- `LRUKReplacer::Remove`: unknown frame is a no-op.  If the frame is
evictable it is unlinked and the counters adjusted; in every found case the
node is deleted from `entries_`.  Note the source has no assertion: a
non-evictable tracked frame is deleted silently and no counter changes. -/
def LRUK.removeFrame (r : LRUK) (f : Nat) : LRUK :=
  match r.entries f with
  | none => r
  | some node =>
    let r1 :=
      if node.evictable then
        let ra := if r.k ≤ node.value then { r with bufSize := r.bufSize - 1 }
                  else { r with histSize := r.histSize - 1 }
        { ra with hist := ra.hist.erase f, buf := ra.buf.erase f }
      else r
    { r1 with entries := delEntry r1.entries f }

/-- The invariant tying the two size counters to the two list segments; it
holds in every reachable replacer state and is assumed where a theorem needs
`EvictInternal` to succeed exactly when `Size() != 0`. -/
def LRUK.listsOk (r : LRUK) : Prop :=
  r.histSize = r.hist.length ∧ r.bufSize = r.buf.length

/-! ## Buffer pool manager (`src/buffer/buffer_pool_manager_instance.cpp`)

`page_id_t` is modelled as `Int` (with `INVALID_PAGE_ID = -1`), frame ids as
`Nat`, and the `PAGE_SIZE` byte payload of a page as a single opaque `Nat`.
The `page_table_` member is the extendible hash table (embedded in the next
section) instantiated at `page_id → frame_id`; the buffer pool uses it only
through `Find`/`Insert`/`Remove`, so it appears here through its map
abstraction, which the refinement theorem for the hash table justifies. -/

structure Frame where
  pageId : Int
  pin : Nat
  dirty : Bool
  data : Nat
deriving DecidableEq

/-- A default-constructed `Page`: `page_id_ = INVALID_PAGE_ID`, zeroed. -/
def Frame.empty : Frame := ⟨-1, 0, false, 0⟩

def ptInsert (pt : Int → Option Nat) (pid : Int) (fid : Nat) : Int → Option Nat :=
  fun x => if x = pid then some fid else pt x

def ptRemove (pt : Int → Option Nat) (pid : Int) : Int → Option Nat :=
  fun x => if x = pid then none else pt x

/-- `DiskManager::WritePage`. -/
def diskWrite (d : Int → Nat) (pid : Int) (v : Nat) : Int → Nat :=
  fun x => if x = pid then v else d x

/-- State of `BufferPoolManagerInstance`: the `pages_` array (a function from
frame id, with `poolSize` recording `pool_size_`; every frame id the source
ever indexes comes from the free list or the replacer and is below the pool
size), the page table, the free list, the replacer, the monotonic
`next_page_id_`, and the disk contents seen through the disk manager. -/
structure BPM where
  poolSize : Nat
  frames : Nat → Frame
  pageTable : Int → Option Nat
  freeList : List Nat
  repl : LRUK
  nextPid : Int
  disk : Int → Nat

/-- The constructor: every frame holds no page and every frame id is in the
free list, front first. -/
def BPM.init (poolSize replacerK : Nat) : BPM :=
  ⟨poolSize, fun _ => Frame.empty, fun _ => none, List.range poolSize,
   LRUK.init poolSize replacerK, 0, fun _ => 0⟩

def BPM.getFrame (b : BPM) (fid : Nat) : Frame := b.frames fid

def BPM.setFrame (b : BPM) (fid : Nat) (fr : Frame) : BPM :=
  { b with frames := fun x => if x = fid then fr else b.frames x }

/-- The eviction branch of `GetAvailableFrame`, after `replacer_->Evict` has
returned victim `fid` leaving the replacer in state `r2`: write the victim
frame back iff it is dirty (clearing the flag), then remove the victim's
page-id binding from the page table. -/
def BPM.evictPath (b : BPM) (fid : Nat) (r2 : LRUK) : BPM :=
  let b1 := { b with repl := r2 }
  let fr := b1.getFrame fid
  let b2 := if fr.dirty then
      { b1.setFrame fid { fr with dirty := false } with
          disk := diskWrite b1.disk fr.pageId fr.data }
    else b1
  { b2 with pageTable := ptRemove b2.pageTable fr.pageId }

/-- `BufferPoolManagerInstance::GetAvailableFrame`: pop the free-list front if
non-empty; otherwise ask the replacer to evict and take the eviction path. -/
def BPM.getAvailableFrame (b : BPM) : Option (Nat × BPM) :=
  match b.freeList with
  | f :: rest => some (f, { b with freeList := rest })
  | [] =>
    match b.repl.evictInternal with
    | none => none
    | some (fid, r2) => some (fid, b.evictPath fid r2)

/-- `NewPgImp` (with `AllocatePage` = `next_page_id_++` inlined): returns the
new page id and its frame id, or `none` with the state untouched when no
frame is available. -/
def BPM.newPgImp (b : BPM) : Option (Int × Nat) × BPM :=
  match b.getAvailableFrame with
  | none => (none, b)
  | some (fid, b1) =>
    let pid := b1.nextPid
    let b2 := { b1 with nextPid := b1.nextPid + 1 }
    let b3 := b2.setFrame fid { pageId := pid, pin := 0, dirty := false, data := 0 }
    let b4 := { b3 with pageTable := ptInsert b3.pageTable pid fid }
    let b5 := { b4 with repl := (b4.repl.recordAccess fid).setEvictable fid false }
    let fr := b5.getFrame fid
    (some (pid, fid), b5.setFrame fid { fr with pin := fr.pin + 1 })

/-- `FetchPgImp`: a resident page is pinned again; otherwise a frame is
obtained, the page read from disk and bound in the page table, or `none` is
returned with the state untouched. -/
def BPM.fetchPgImp (b : BPM) (pid : Int) : Option Nat × BPM :=
  match b.pageTable pid with
  | some fid =>
    let b1 := { b with repl := (b.repl.recordAccess fid).setEvictable fid false }
    let fr := b1.getFrame fid
    (some fid, b1.setFrame fid { fr with pin := fr.pin + 1 })
  | none =>
    match b.getAvailableFrame with
    | none => (none, b)
    | some (fid, b1) =>
      let b2 := b1.setFrame fid { pageId := pid, pin := 0, dirty := false, data := b1.disk pid }
      let b3 := { b2 with pageTable := ptInsert b2.pageTable pid fid }
      let b4 := { b3 with repl := (b3.repl.recordAccess fid).setEvictable fid false }
      let fr := b4.getFrame fid
      (some fid, b4.setFrame fid { fr with pin := fr.pin + 1 })

/-- `UnpinPgImp`: fails on a non-resident page or a zero pin count; otherwise
decrements the pin count, marks the frame evictable when it reaches zero, and
sets the (sticky) dirty flag iff the caller passed `true`. -/
def BPM.unpinPgImp (b : BPM) (pid : Int) (isDirty : Bool) : Bool × BPM :=
  match b.pageTable pid with
  | none => (false, b)
  | some fid =>
    let fr := b.getFrame fid
    if fr.pin = 0 then (false, b)
    else
      let fr1 := { fr with pin := fr.pin - 1 }
      let b1 := b.setFrame fid fr1
      let b2 := if fr1.pin = 0 then { b1 with repl := b1.repl.setEvictable fid true } else b1
      let b3 := if isDirty then b2.setFrame fid { b2.getFrame fid with dirty := true } else b2
      (true, b3)

/-- `FlushPgImp`: write a resident page to disk and clear its dirty flag. -/
def BPM.flushPgImp (b : BPM) (pid : Int) : Bool × BPM :=
  match b.pageTable pid with
  | none => (false, b)
  | some fid =>
    let fr := b.getFrame fid
    (true, { b.setFrame fid { fr with dirty := false } with
               disk := diskWrite b.disk pid fr.data })

/-- `DeletePgImp`: non-resident pages trivially succeed; pinned pages fail;
otherwise the binding, the replacer entry and the frame are reset and the
frame id returned to the back of the free list. -/
def BPM.deletePgImp (b : BPM) (pid : Int) : Bool × BPM :=
  match b.pageTable pid with
  | none => (true, b)
  | some fid =>
    let fr := b.getFrame fid
    if 0 < fr.pin then (false, b)
    else
      let b1 := { b with pageTable := ptRemove b.pageTable pid,
                         repl := b.repl.removeFrame fid,
                         freeList := b.freeList ++ [fid] }
      (true, b1.setFrame fid Frame.empty)

/-! ## Extendible hash table (`src/container/hash/extendible_hash_table.cpp`)

Keys and values are `Nat`; `std::hash` is an arbitrary function `h : Nat → Nat`
passed to every operation.  Buckets live in a pool `buckets` indexed by
bucket id and directory slots hold bucket ids, so the `shared_ptr` aliasing
of the source (several directory slots holding the same bucket, mutations
visible through all of them) is represented exactly.  `Bucket::IsFull` is
`list_.size() == size_` in the (header-only, absent) bucket class; since the
list never exceeds `size_`, it is modelled as `size_ ≤ list_.size()`. -/

structure BK where
  items : List (Nat × Nat)
  depth : Nat
deriving DecidableEq

/-- State of `ExtendibleHashTable`: bucket pool, directory (`dir_`),
`global_depth_`, `bucket_size_`, `num_buckets_`. -/
structure HT where
  buckets : List BK
  dir : List Nat
  g : Nat
  bsize : Nat
  numBuckets : Nat
deriving DecidableEq

/-- The constructor: one empty bucket of local depth 0, directory `[0]`. -/
def HT.init (bucketSize : Nat) : HT := ⟨[⟨[], 0⟩], [0], 0, bucketSize, 1⟩

/-- `IndexOf(key)`: the low `global_depth_` bits of the hash. -/
def HT.indexOf (h : Nat → Nat) (t : HT) (k : Nat) : Nat := h k % 2 ^ t.g

def HT.bidAt (t : HT) (i : Nat) : Nat := t.dir.getD i 0

def HT.bucketAt (t : HT) (i : Nat) : BK := t.buckets.getD (t.bidAt i) ⟨[], 0⟩

def HT.setBucket (t : HT) (bid : Nat) (bk : BK) : HT :=
  { t with buckets := t.buckets.set bid bk }

/-- `Bucket::Find`: linear scan for the first entry with this key. -/
def bkFind : List (Nat × Nat) → Nat → Option Nat
  | [], _ => none
  | (k, v) :: rest, key => if k = key then some v else bkFind rest key

/-- `Bucket::Remove`: erase the first matching entry; report whether one was
found. -/
def bkRemove : List (Nat × Nat) → Nat → Bool × List (Nat × Nat)
  | [], _ => (false, [])
  | (k, v) :: rest, key =>
    if k = key then (true, rest)
    else
      let r := bkRemove rest key
      (r.1, (k, v) :: r.2)

/-- The overwrite scan inside `Bucket::Insert`: update the first matching
entry in place, or report the key absent. -/
def bkOverwrite : List (Nat × Nat) → Nat → Nat → Option (List (Nat × Nat))
  | [], _, _ => none
  | (k, v) :: rest, key, val =>
    if k = key then some ((k, val) :: rest)
    else (bkOverwrite rest key val).map (fun l => (k, v) :: l)

/-- `Bucket::Insert`: a full bucket rejects (even when the key is present);
otherwise overwrite the first match in place, or append. -/
def bkInsert (bsize : Nat) (l : List (Nat × Nat)) (key val : Nat) : Option (List (Nat × Nat)) :=
  if bsize ≤ l.length then none
  else match bkOverwrite l key val with
    | some l2 => some l2
    | none => some (l ++ [(key, val)])

/-- `ExtendibleHashTable::Find`. -/
def HT.find (h : Nat → Nat) (t : HT) (k : Nat) : Option Nat :=
  bkFind (t.bucketAt (t.indexOf h k)).items k

/-- `ExtendibleHashTable::Remove`. -/
def HT.remove (h : Nat → Nat) (t : HT) (k : Nat) : HT :=
  let bid := t.bidAt (t.indexOf h k)
  let bk := t.buckets.getD bid ⟨[], 0⟩
  t.setBucket bid { bk with items := (bkRemove bk.items k).2 }

/-- One directory doubling: `global_depth_++` and every slot `i` of the old
directory reappears at `i + 2^g` holding the same bucket. -/
def HT.double (t : HT) : HT := { t with g := t.g + 1, dir := t.dir ++ t.dir }

/-- The slot-repointing loop of a split (`for i = first+1; i < dir_.size()`):
every slot whose low `d` bits equal `first` but whose low `d+1` bits do not
is pointed at one shared fresh bucket of depth `d+1` (created at the first
qualifying slot); `num_buckets_` is incremented iff some slot qualifies. -/
def HT.repoint (t : HT) (first d : Nat) : HT :=
  let qual := (List.range t.dir.length).filter
      (fun i => first + 1 ≤ i ∧ i % 2 ^ d = first ∧ i % 2 ^ (d + 1) ≠ first)
  if qual.isEmpty then t
  else
    let nb := t.buckets.length
    { t with buckets := t.buckets ++ [⟨[], d + 1⟩],
             dir := qual.foldl (fun dir i => dir.set i nb) t.dir,
             numBuckets := t.numBuckets + 1 }

/-- One iteration of the redistribution loop at the end of a split:
re-insert a saved entry through the current directory (a `Bucket::Insert`
failure is ignored, exactly as in the source, which discards the return
value). -/
def HT.reinsertOne (h : Nat → Nat) (t : HT) (kv : Nat × Nat) : HT :=
  match bkInsert t.bsize (t.bucketAt (t.indexOf h kv.1)).items kv.1 kv.2 with
  | some items2 =>
      t.setBucket (t.bidAt (t.indexOf h kv.1))
        { t.bucketAt (t.indexOf h kv.1) with items := items2 }
  | none => t

/-- The redistribution loop at the end of a split. -/
def HT.reinsert (h : Nat → Nat) (t : HT) (l : List (Nat × Nat)) : HT :=
  l.foldl (HT.reinsertOne h) t

/-- The body of one failed-insert iteration of `Insert`'s `while` loop: save
and clear the overflowing bucket's items, double the directory if the
bucket's local depth equals the global depth, compute `first` from the low
(old-)local-depth bits of the key's hash, increment the bucket's local
depth, repoint the split image's slots to a fresh bucket, and redistribute
the saved items. -/
def HT.splitStep (h : Nat → Nat) (t : HT) (k : Nat) : HT :=
  let bid := t.bidAt (t.indexOf h k)
  let bk := t.buckets.getD bid ⟨[], 0⟩
  let saved := bk.items
  let t1 := t.setBucket bid { bk with items := [] }
  let t2 := if (t1.bucketAt (t1.indexOf h k)).depth = t1.g then t1.double else t1
  let d := (t2.buckets.getD bid ⟨[], 0⟩).depth
  let first := h k % 2 ^ d
  let t3 := t2.setBucket bid ⟨[], d + 1⟩
  let t4 := t3.repoint first d
  HT.reinsert h t4 saved

/-- `ExtendibleHashTable::Insert`, with fuel bounding the retry loop (the
source loops until the insert succeeds, which pathological hash collisions
can prevent; `none` is running out of fuel). -/
def HT.insert (h : Nat → Nat) : Nat → HT → Nat → Nat → Option HT
  | 0, _, _, _ => none
  | fuel + 1, t, k, v =>
    let bid := t.bidAt (t.indexOf h k)
    let bk := t.buckets.getD bid ⟨[], 0⟩
    match bkInsert t.bsize bk.items k v with
    | some items2 => some (t.setBucket bid { bk with items := items2 })
    | none => HT.insert h fuel (t.splitStep h k) k v

/-- A client-visible operation sequence on the hash table. -/
inductive HOp where
  | ins (k v : Nat)
  | del (k : Nat)
deriving DecidableEq

/-- Run a sequence of operations from a state (each insert gets `fuel`). -/
def HT.runOps (h : Nat → Nat) (fuel : Nat) : List HOp → HT → Option HT
  | [], t => some t
  | HOp.ins k v :: rest, t =>
    match HT.insert h fuel t k v with
    | some t2 => HT.runOps h fuel rest t2
    | none => none
  | HOp.del k :: rest, t => HT.runOps h fuel rest (t.remove h k)

/-- The reference map semantics of the same operation sequence. -/
def modelRun : List HOp → (Nat → Option Nat) → (Nat → Option Nat)
  | [], m => m
  | HOp.ins k v :: rest, m => modelRun rest (fun x => if x = k then some v else m x)
  | HOp.del k :: rest, m => modelRun rest (fun x => if x = k then none else m x)

/-- Well-formedness of an extendible hash table state, preserved by every
operation: the directory has `2^g` slots, each holding a valid bucket id; no
bucket is deeper than the directory; two slots hold the same bucket exactly
when they agree on the low `depth` bits of either slot; each stored entry
hashes into its bucket's slot class; keys are unique within a bucket; and no
bucket overflows `bucket_size_`. -/
structure HT.wf (h : Nat → Nat) (t : HT) : Prop where
  dirLen : t.dir.length = 2 ^ t.g
  bidLt : ∀ i, i < t.dir.length → t.bidAt i < t.buckets.length
  depthLe : ∀ i, i < t.dir.length → (t.bucketAt i).depth ≤ t.g
  share : ∀ i, i < t.dir.length → ∀ j, j < t.dir.length →
    (t.bidAt i = t.bidAt j ↔ i % 2 ^ (t.bucketAt i).depth = j % 2 ^ (t.bucketAt i).depth)
  inClass : ∀ i, i < t.dir.length → ∀ kv, kv ∈ (t.bucketAt i).items →
    h kv.1 % 2 ^ (t.bucketAt i).depth = i % 2 ^ (t.bucketAt i).depth
  nodup : ∀ i, i < t.dir.length → ((t.bucketAt i).items.map Prod.fst).Nodup
  bounded : ∀ i, i < t.dir.length → (t.bucketAt i).items.length ≤ t.bsize

/-- A concrete operation sequence exercising splits: with bucket size 2 and
the identity hash, keys 0 and 2 collide while the directory is shallow, so
the third insert forces a split before the delete runs. -/
def c6ops : List HOp := [HOp.ins 0 10, HOp.ins 2 20, HOp.ins 0 30, HOp.del 2]

/-- The state reached by running `c6ops` on an empty table of bucket size 2
with the identity hash. -/
def c6state : HT := (HT.runOps (fun x => x) 10 c6ops (HT.init 2)).getD (HT.init 2)

/-- Bucket size 2, identity hash, after inserting (0,10) then (2,20): a
single full bucket that contains key 0. -/
def c7full : HT :=
  ((HT.insert (fun x => x) 10 (HT.init 2) 0 10).bind
    (fun t => HT.insert (fun x => x) 10 t 2 20)).getD (HT.init 2)

/-- Bucket size 2, identity hash, holding only (0,10): key 0 is present and
its bucket still has room. -/
def c7slack : HT := (HT.insert (fun x => x) 10 (HT.init 2) 0 10).getD (HT.init 2)

/-! ### B+ tree embedding

The page classes (`BPlusTreePage`, leaf and internal pages) are not part of
this snapshot; their entry-level helpers (`Find`, `InsertDataToPage`,
`IndexAtOfValue`, `GetMinSize`) are modelled from the spec, as marked below.
The buffer pool is modelled by its net effect on the tree: resident pages,
per-page pin counts and dirty flags, a monotone page-id counter; the pool is
assumed larger than the working set (no eviction), `FetchPage` of an absent
page and the header-page update are modelled as failure and as pin-neutral
respectively. -/

/-- A B+ tree page: leaf or internal node.  `keys`/`vals` are the slot
arrays; slots at or beyond `size` hold stale data, as in the C++ page. -/
structure TNode where
  isLeaf : Bool
  pageId : Int
  parent : Int
  size : Nat
  maxSize : Nat
  keys : Nat → Nat
  vals : Nat → Int
  next : Int

def TNode.keyAt (n : TNode) (i : Nat) : Nat := n.keys i
def TNode.valAt (n : TNode) (i : Nat) : Int := n.vals i

def TNode.setKV (n : TNode) (i : Nat) (k : Nat) (v : Int) : TNode :=
  { n with keys := fun j => if j = i then k else n.keys j,
           vals := fun j => if j = i then v else n.vals j }

/-- Modelled from the spec: `min_size = ⌈max_size / 2⌉`. -/
def TNode.minSize (n : TNode) : Nat := (n.maxSize + 1) / 2

/-- Modelled from the spec: leaf `Find` returns the index of the key, or
`INVALID_INDEX_ID` (here `none`) when absent. -/
def TNode.findKey (n : TNode) (k : Nat) : Option Nat :=
  (List.range n.size).find? (fun i => n.keys i == k)

def internalFindAux (n : TNode) (k : Nat) : Nat → Nat
  | 0 => 0
  | i + 1 => if n.keys (i + 1) ≤ k then i + 1 else internalFindAux n k i

/-- Modelled from the spec: internal `Find` returns the greatest entry index
i with key[i] ≤ k, treating entry 0 as −∞. -/
def TNode.internalFind (n : TNode) (k : Nat) : Nat :=
  match n.size with
  | 0 => 0
  | s + 1 => internalFindAux n k s

/-- Slot-array view of inserting at `idx` in a node of `size` entries:
entries at and after `idx` shift one slot right; slots beyond the new size
keep their stale contents. -/
def insertSlot {α : Type} (f : Nat → α) (idx : Nat) (x : α) (size : Nat) : Nat → α :=
  fun j => if j < idx then f j else if j = idx then x
    else if j ≤ size then f (j - 1) else f j

/-- Modelled from the spec: leaf `InsertDataToPage` inserts keeping order. -/
def TNode.leafInsert (n : TNode) (k : Nat) (v : Int) : TNode :=
  let idx := (List.range n.size).countP (fun i => n.keys i < k)
  { n with size := n.size + 1, keys := insertSlot n.keys idx k n.size,
           vals := insertSlot n.vals idx v n.size }

/-- Modelled from the spec: internal `InsertDataToPage` inserts the promoted
(key, child) pair after the greatest entry with a smaller-or-equal key. -/
def TNode.internalInsert (n : TNode) (k : Nat) (v : Int) : TNode :=
  let idx := n.internalFind k + 1
  { n with size := n.size + 1, keys := insertSlot n.keys idx k n.size,
           vals := insertSlot n.vals idx v n.size }

/-- Modelled from the spec: `IndexAtOfValue` returns the index of the child
pointer, or `INVALID_INDEX_ID` (`none`). -/
def TNode.indexAtOfValue (n : TNode) (v : Int) : Option Nat :=
  (List.range n.size).find? (fun i => n.vals i == v)

def TNode.initLeaf (pid parent : Int) (maxSize : Nat) : TNode :=
  ⟨true, pid, parent, 0, maxSize, fun _ => 0, fun _ => -1, -1⟩

def TNode.initInternal (pid parent : Int) (maxSize : Nat) : TNode :=
  ⟨false, pid, parent, 0, maxSize, fun _ => 0, fun _ => -1, -1⟩

/-- The buffer pool as seen by the tree: resident pages, pin counts and
dirty flags per page id, and the monotone allocation counter. -/
structure TStore where
  pages : Int → Option TNode
  pins : Int → Nat
  dirty : Int → Bool
  nextPid : Int

def TStore.init : TStore := ⟨fun _ => none, fun _ => 0, fun _ => false, 1⟩

def TStore.fetchPage (s : TStore) (pid : Int) : Option (TNode × TStore) :=
  match s.pages pid with
  | some n => some (n,
      { s with pins := fun p => if p = pid then s.pins pid + 1 else s.pins p })
  | none => none

def TStore.unpinPage (s : TStore) (pid : Int) (d : Bool) : TStore :=
  match s.pages pid with
  | none => s
  | some _ =>
    if s.pins pid = 0 then s
    else { s with pins := fun p => if p = pid then s.pins pid - 1 else s.pins p,
                  dirty := fun p => if p = pid then (s.dirty p || d) else s.dirty p }

def TStore.newPage (s : TStore) : Int × TStore :=
  (s.nextPid,
   { s with pages := fun p => if p = s.nextPid then some (TNode.initLeaf s.nextPid (-1) 0)
            else s.pages p,
            pins := fun p => if p = s.nextPid then 1 else s.pins p,
            nextPid := s.nextPid + 1 })

def TStore.writePage (s : TStore) (pid : Int) (n : TNode) : TStore :=
  { s with pages := fun p => if p = pid then some n else s.pages p }

def TStore.deletePage (s : TStore) (pid : Int) : Bool × TStore :=
  match s.pages pid with
  | none => (true, s)
  | some _ =>
    if s.pins pid ≠ 0 then (false, s)
    else (true, { s with pages := fun p => if p = pid then none else s.pages p })

structure BPT where
  store : TStore
  rootPid : Int
  leafMax : Nat
  internalMax : Nat

def BPT.init (leafMax internalMax : Nat) : BPT := ⟨TStore.init, -1, leafMax, internalMax⟩

def BPT.isEmpty (t : BPT) : Bool := t.rootPid == -1

def BPT.findLeafAux (key : Nat) : Nat → TStore → Int → TNode → Option (Int × TStore)
  | 0, _, _, _ => none
  | fuel + 1, s, pid, page =>
    if page.isLeaf then some (pid, s)
    else
      let index := page.internalFind key
      let cpid := page.valAt index
      match s.fetchPage cpid with
      | none => none
      | some (cpage, s1) =>
        BPT.findLeafAux key fuel (s1.unpinPage page.pageId false) cpid cpage

def BPT.findLeafPage (t : BPT) (key : Nat) (fuel : Nat) : Option (Int × TStore) :=
  match t.store.fetchPage t.rootPid with
  | none => none
  | some (page, s1) => BPT.findLeafAux key fuel s1 t.rootPid page

def BPT.getValue (t : BPT) (key : Nat) (fuel : Nat) : Option (Option Int × TStore) :=
  match t.findLeafPage key fuel with
  | none => none
  | some (lpid, s) =>
    match s.pages lpid with
    | none => none
    | some leaf =>
      match leaf.findKey key with
      | none => some (none, s)
      | some idx => some (some (leaf.valAt idx), s.unpinPage lpid false)

/-- The element-move loop of both split paths: for i in [splitIndex, size),
dst[i - splitIndex] := src[i]. -/
def copyUpper (src dst : TNode) (splitIndex size : Nat) : TNode :=
  (List.range (size - splitIndex)).foldl
    (fun d j => d.setKV j (src.keyAt (splitIndex + j)) (src.valAt (splitIndex + j))) dst

def BPT.splitLeafPage (t : BPT) (lpid : Int) : Option (Int × BPT) :=
  match t.store.pages lpid with
  | none => none
  | some page0 =>
    let size := page0.size
    let (newPid, s1) := t.store.newPage
    let newInit := TNode.initLeaf newPid page0.parent t.leafMax
    let splitIndex := size / 2
    let newPage1 := { copyUpper page0 newInit splitIndex size with size := size - splitIndex }
    let page1 := { page0 with size := splitIndex }
    if lpid = t.rootPid then
      let (rootPid2, s2) := s1.newPage
      let newRoot0 := TNode.initInternal rootPid2 (-1) t.internalMax
      let newRoot1 := (newRoot0.setKV 0 0 lpid).setKV 1 (newPage1.keyAt 0) newPid
      let newRoot2 := { newRoot1 with size := newRoot1.size + 2 }
      let page2 := { page1 with parent := rootPid2 }
      let newPage2 := { newPage1 with parent := rootPid2, next := page2.next }
      let page3 := { page2 with next := newPid }
      let s3 := ((s2.writePage lpid page3).writePage newPid newPage2).writePage rootPid2 newRoot2
      let s4 := (s3.unpinPage newPid true).unpinPage rootPid2 true
      some (rootPid2, { t with store := s4, rootPid := rootPid2 })
    else
      let ppid := page1.parent
      match s1.fetchPage ppid with
      | none => none
      | some (parent0, s2) =>
        let parent1 := parent0.internalInsert (newPage1.keyAt 0) newPid
        let newPage2 := { newPage1 with parent := ppid, next := page1.next }
        let page2 := { page1 with next := newPid }
        let s3 := ((s2.writePage ppid parent1).writePage lpid page2).writePage newPid newPage2
        let s4 := (s3.unpinPage newPid true).unpinPage ppid true
        some (ppid, { t with store := s4 })

/-- The overflow-propagation loop of `InsertLeafPage` (source lines 118-161).
The argument is `current_page` (`none` models the null pointer); internal
splits copy the child pointers but never update the moved children's
`parent_page_id`. -/
def BPT.insertLoop : Nat → BPT → Option Int → Option BPT
  | 0, _, _ => none
  | fuel + 1, t, curOpt =>
    match curOpt with
    | none => none
    | some cpid =>
      match t.store.pages cpid with
      | none => none
      | some cur =>
        if cur.size > cur.maxSize then
          let size := cur.size
          let (newPid, s1) := t.store.newPage
          let new0 := TNode.initInternal newPid cur.parent t.internalMax
          let splitIndex := size / 2
          let new1 := { copyUpper cur new0 splitIndex size with size := size - splitIndex }
          let cur1 := { cur with size := splitIndex }
          if cpid = t.rootPid then
            let (rpid2, s2) := s1.newPage
            let newRoot0 := TNode.initInternal rpid2 (-1) t.internalMax
            let newRoot1 := (newRoot0.setKV 0 0 cpid).setKV 1 (new1.keyAt 0) newPid
            let newRoot2 := { newRoot1 with size := newRoot1.size + 2 }
            let new2 := new1.setKV 0 0 (new1.valAt 0)
            let cur2 := { cur1 with parent := rpid2 }
            let new3 := { new2 with parent := rpid2 }
            let s3 := ((s2.writePage cpid cur2).writePage newPid new3).writePage rpid2 newRoot2
            let parentPid := cur2.parent
            let s4 := (s3.unpinPage newPid true).unpinPage cpid true
            match s4.fetchPage parentPid with
            | none => none
            | some (_, s5) =>
              BPT.insertLoop fuel { t with store := s5, rootPid := rpid2 } (some parentPid)
          else
            match s1.fetchPage cur.parent with
            | none => none
            | some (par0, s2) =>
              let par1 := par0.internalInsert (new1.keyAt 0) newPid
              let new2 := new1.setKV 0 0 (new1.valAt 0)
              let new3 := { new2 with parent := cur.parent }
              let s3 := ((s2.writePage par0.pageId par1).writePage cpid cur1).writePage
                newPid new3
              let s4 := s3.unpinPage par0.pageId true
              let parentPid := cur1.parent
              let s5 := (s4.unpinPage newPid true).unpinPage cpid true
              if parentPid ≠ -1 then
                match s5.fetchPage parentPid with
                | none => none
                | some (_, s6) => BPT.insertLoop fuel { t with store := s6 } (some parentPid)
              else
                BPT.insertLoop fuel { t with store := s5 } none
        else
          some { t with store := t.store.unpinPage cpid true }

def BPT.insertLeafPage (t : BPT) (key : Nat) (v : Int) (fuel : Nat) : Option BPT :=
  match t.findLeafPage key fuel with
  | none => none
  | some (lpid, s) =>
    match s.pages lpid with
    | none => none
    | some leaf =>
      match leaf.findKey key with
      | some idx =>
        let leaf1 := leaf.setKV idx key v
        some { t with store := (s.writePage lpid leaf1).unpinPage lpid true }
      | none =>
        let leaf1 := leaf.leafInsert key v
        let s1 := s.writePage lpid leaf1
        if leaf1.size ≤ leaf1.maxSize then
          some { t with store := s1.unpinPage lpid true }
        else
          match BPT.splitLeafPage { t with store := s1 } lpid with
          | none => none
          | some (ppid, t1) =>
            match t1.store.fetchPage ppid with
            | none => none
            | some (_, s2) => BPT.insertLoop fuel { t1 with store := s2 } (some ppid)

def BPT.insert (t : BPT) (key : Nat) (v : Int) (fuel : Nat) : Option (Bool × BPT) :=
  if t.rootPid = -1 then
    let (rpid, s1) := t.store.newPage
    let leaf1 := (TNode.initLeaf rpid (-1) t.leafMax).leafInsert key v
    let s2 := (s1.writePage rpid leaf1).unpinPage rpid true
    some (true, { t with store := s2, rootPid := rpid })
  else
    (t.insertLeafPage key v fuel).map (fun t1 => (true, t1))

/-- `Redistribute` on the three page snapshots; returns (left, right, parent)
after the in-memory mutations, before the size adjustments. -/
def redistributeCore (l r parent : TNode) (index : Nat) : TNode × TNode × TNode :=
  if l.size < l.minSize then
    if l.isLeaf then
      let parent1 := parent.setKV index (r.keyAt 1) (parent.valAt index)
      let l1 := l.setKV l.size (r.keyAt 0) (r.valAt 0)
      let r1 := (List.range (r.size - 1)).foldl
        (fun m j => m.setKV j (m.keyAt (j + 1)) (m.valAt (j + 1))) r
      (l1, r1, parent1)
    else
      let r1 := r.setKV 0 (parent.keyAt index) (r.valAt 0)
      let parent1 := parent.setKV index (r1.keyAt 1) (parent.valAt index)
      let r2 := r1.setKV 1 0 (r1.valAt 1)
      let l1 := l.setKV l.size (r2.keyAt 0) (r2.valAt 0)
      let r3 := (List.range (r2.size - 1)).foldl
        (fun m j => m.setKV j (m.keyAt (j + 1)) (m.valAt (j + 1))) r2
      (l1, r3, parent1)
  else
    if r.isLeaf then
      let r1 := (List.range r.size).foldl
        (fun m i => m.setKV (i + 1) (m.keyAt i) (m.valAt i)) r
      let mi := l.size - 1
      let r2 := r1.setKV 0 (l.keyAt mi) (l.valAt mi)
      let parent1 := parent.setKV index (r2.keyAt 0) (parent.valAt index)
      (l, r2, parent1)
    else
      let r1 := (List.range r.size).foldl
        (fun m i => m.setKV (i + 1) (m.keyAt i) (m.valAt i)) r
      let r2 := r1.setKV 1 (parent.keyAt index) (r1.valAt 1)
      let mi := l.size - 1
      let r3 := r2.setKV 0 (l.keyAt mi) (l.valAt mi)
      let parent1 := parent.setKV index (r3.keyAt 0) (parent.valAt index)
      let r4 := r3.setKV 0 0 (r3.valAt 0)
      (l, r4, parent1)

def redistribute (l r parent : TNode) (index : Nat) : TNode × TNode × TNode :=
  let (l1, r1, parent1) := redistributeCore l r parent index
  ({ l1 with size := l1.size + 1 }, { r1 with size := r1.size - 1 }, parent1)

/-- `Coalesce` on the three page snapshots: returns (left, right, parent)
after the in-memory mutations.  The copy loop is bounded by the LEFT node's
size and the parent's size is never decremented, as in the source. -/
def coalesce (l r parent : TNode) (index : Nat) : TNode × TNode × TNode :=
  let l0 := if l.isLeaf then { l with next := r.next } else l
  let r0 := if l.isLeaf then r else r.setKV 0 (parent.keyAt index) (r.valAt 0)
  let l1 := (List.range l0.size).foldl
    (fun m i => m.setKV (l0.size + i) (r0.keyAt i) (r0.valAt i)) l0
  let parent1 := (List.range (parent.size - (index + 1))).foldl
    (fun m j => m.setKV (index + j) (m.keyAt (index + j + 1)) (m.valAt (index + j + 1)))
    parent
  ({ l1 with size := l1.size + r0.size }, r0, parent1)

/-- Root demotion check and final parent unpin of `SolveOverflow`
(source lines 371-378). -/
def BPT.solveFinish (t : BPT) (s : TStore) (nodePid parentPid : Int) : Option BPT :=
  match s.pages parentPid with
  | none => none
  | some parentC =>
    if parentC.size = 1 ∧ parentPid = t.rootPid then
      let (_, s1) := s.deletePage t.rootPid
      match s1.pages nodePid with
      | none => none
      | some nodeC =>
        let s2 := s1.writePage nodePid { nodeC with parent := -1 }
        some { t with store := s2.unpinPage parentPid true, rootPid := nodePid }
    else
      some { t with store := s.unpinPage parentPid true }

/-- The right-sibling coalesce block of `SolveOverflow` (source 353-368):
fetches the right sibling (never unpinned) and merges node into it when
small enough; the right page's delete fails while it is pinned. -/
def BPT.solveRightCoalesce (t : BPT) (s : TStore) (npid : Int) (node0 parent0 : TNode)
    (parentPid : Int) (ci : Nat) : Option BPT :=
  let spid := parent0.valAt (ci + 1)
  match s.fetchPage spid with
  | none => none
  | some (sib1, s1) =>
    if node0.size + sib1.size ≤ sib1.maxSize then
      let (l2, rr, p2) := coalesce node0 sib1 parent0 (ci + 1)
      let s2 := ((s1.writePage npid l2).writePage spid rr).writePage parentPid p2
      let (_, s3) := s2.deletePage spid
      t.solveFinish s3 npid parentPid
    else
      t.solveFinish s1 npid parentPid

def BPT.solveOverflow (t : BPT) (npid : Int) : Option BPT :=
  match t.store.pages npid with
  | none => none
  | some node0 =>
    let parentPid := node0.parent
    match t.store.fetchPage parentPid with
    | none => none
    | some (parent0, s1) =>
      match parent0.indexAtOfValue npid with
      | none => none
      | some ci =>
        if 1 ≤ ci then
          let spid := parent0.valAt (ci - 1)
          match s1.fetchPage spid with
          | none => none
          | some (sib0, s2) =>
            if sib0.size > sib0.minSize then
              let (l1, r1, p1) := redistribute sib0 node0 parent0 ci
              let s3 := ((s2.writePage spid l1).writePage npid r1).writePage parentPid p1
              t.solveFinish (s3.unpinPage spid true) npid parentPid
            else
              let s3 := s2.unpinPage spid true
              match s3.fetchPage spid with
              | none => none
              | some (sib1, s4) =>
                if sib1.size + node0.size ≤ node0.maxSize then
                  let (l2, rr, p2) := coalesce sib1 node0 parent0 ci
                  let s5 := ((s4.writePage spid l2).writePage npid rr).writePage parentPid p2
                  let (_, s6) := s5.deletePage npid
                  t.solveFinish s6 spid parentPid
                else
                  t.solveFinish s4 npid parentPid
        else
          if ci + 1 < parent0.size then
            let spid := parent0.valAt (ci + 1)
            match s1.fetchPage spid with
            | none => none
            | some (sib0, s2) =>
              if sib0.size > sib0.minSize then
                let (l1, r1, p1) := redistribute node0 sib0 parent0 (ci + 1)
                let s3 := ((s2.writePage npid l1).writePage spid r1).writePage parentPid p1
                t.solveFinish (s3.unpinPage spid true) npid parentPid
              else
                let s3 := s2.unpinPage spid true
                t.solveRightCoalesce s3 npid node0 parent0 parentPid ci
          else
            t.solveRightCoalesce s1 npid node0 parent0 parentPid ci

/-- The upward underflow loop of `Remove` (source lines 421-433), starting
at a pinned node and ending with the final unpin of line 433. -/
def BPT.removeLoop : Nat → BPT → Int → Option BPT
  | 0, _, _ => none
  | fuel + 1, t, npid =>
    match t.store.pages npid with
    | none => none
    | some node =>
      if node.size < node.minSize then
        match t.solveOverflow npid with
        | none => none
        | some t1 =>
          match t1.store.pages npid with
          | none => none
          | some node1 =>
            let parentPid := node1.parent
            if parentPid ≠ -1 then
              let s1 := t1.store.unpinPage npid true
              match s1.fetchPage parentPid with
              | none => none
              | some (_, s2) => BPT.removeLoop fuel { t1 with store := s2 } parentPid
            else
              some { t1 with store := t1.store.unpinPage npid true }
      else
        some { t with store := t.store.unpinPage npid true }

def BPT.remove (t : BPT) (key : Nat) (fuel : Nat) : Option BPT :=
  if t.rootPid = -1 then some t
  else
    match t.findLeafPage key fuel with
    | none => none
    | some (lpid, s) =>
      match s.pages lpid with
      | none => none
      | some leaf =>
        match leaf.findKey key with
        | none => some { t with store := s.unpinPage lpid true }
        | some idx =>
          let leaf1 := (List.range (leaf.size - 1 - idx)).foldl
            (fun m j => m.setKV (idx + j) (m.keyAt (idx + j + 1)) (m.valAt (idx + j + 1)))
            leaf
          let leaf2 := { leaf1 with size := leaf1.size - 1 }
          let s1 := s.writePage lpid leaf2
          if lpid = t.rootPid then
            if leaf2.size = 0 then
              let (_, s2) := s1.deletePage t.rootPid
              some { t with store := s2 }
            else
              some { t with store := s1 }
          else
            if leaf2.size < leaf2.minSize then
              match BPT.solveOverflow { t with store := s1 } lpid with
              | none => none
              | some t1 =>
                match t1.store.pages lpid with
                | none => none
                | some leafC =>
                  match t1.store.fetchPage leafC.parent with
                  | none => none
                  | some (_, s3) => BPT.removeLoop fuel { t1 with store := s3 } leafC.parent
            else
              none

/-- Insert each key of the list with value 100+key (fuel 30 per insert). -/
def bptInsRange (t : BPT) (ks : List Nat) : Option BPT :=
  ks.foldl
    (fun acc k => acc.bind (fun u => (u.insert k (Int.ofNat (100 + k)) 30).map (fun p => p.2)))
    (some t)

/-- C1 failing input: leaf and internal max size 3, insert keys 1..10. -/
def c1run : Option BPT := bptInsRange (BPT.init 3 3) (List.range' 1 10)

/-- C2 failing input: insert 5 into an empty tree, then remove 5 (the root
leaf becomes empty). -/
def c2run : Option BPT := (bptInsRange (BPT.init 3 3) [5]).bind (fun t => t.remove 5 30)

/-- C3 failing input: insert 1..4 (two leaves under one root), then remove 1
so the left leaf underflows and coalesces with its right sibling. -/
def c3run : Option BPT := (bptInsRange (BPT.init 3 3) [1, 2, 3, 4]).bind
  (fun t => t.remove 1 30)

/-- C4 failing input: a single-leaf tree holding only key 1. -/
def c4run : Option BPT := bptInsRange (BPT.init 3 3) [1]

/-! ### Claim C5 -/

/-- K = 2, capacity 10: access frame 1 (time 1), then frame 2 (time 2), then
make 2 evictable, then make 1 evictable.  Both frames have fewer than K
accesses. -/
def c5state : LRUK :=
  ((((LRUK.init 10 2).recordAccess 1).recordAccess 2).setEvictable 2 true).setEvictable 1 true

/-- C5: the claim says `Evict` returns evictable frames with fewer than K
accesses ordered by earliest access time first, which here is frame 1
(accessed before frame 2).  The code instead orders the history segment by
the time the frame became evictable (front = most recently made evictable)
and evicts its tail, returning frame 2 — contradicting the claim and the
source's own header comment ("evict the frame with the earliest timestamp
overall").  This theorem evaluates the code at the failing input. -/
theorem c5_evict_order_divergence :
    Option.map Prod.fst c5state.evictInternal = some 2 ∧ (2 : Nat) ≠ 1 := by
  constructor
  · rfl
  · decide

/-! ### Claim C10 -/

/-- C10: `Remove` on a tracked but non-evictable frame does not touch the
lists or the size counters, silently deletes the frame's node and access
history, and a subsequent `RecordAccess` for that frame starts from a fresh
count of 1 (not evictable). -/
theorem c10_remove_nonevictable (r : LRUK) (f : Nat) (node : RNode)
    (htrk : r.entries f = some node) (hnev : node.evictable = false) :
    (r.removeFrame f).histSize = r.histSize ∧
    (r.removeFrame f).bufSize = r.bufSize ∧
    (r.removeFrame f).hist = r.hist ∧
    (r.removeFrame f).buf = r.buf ∧
    (r.removeFrame f).entries f = none ∧
    ((r.removeFrame f).recordAccess f).entries f = some ⟨1, false⟩ := by
  unfold LRUK.removeFrame
  rw [htrk]
  simp [hnev, LRUK.recordAccess, delEntry, updEntry]

/-- Concrete witness for C10: frame 5 is tracked (after one access) and not
evictable. -/
theorem c10_remove_nonevictable_witness :
    (((LRUK.init 10 2).recordAccess 5).removeFrame 5).histSize =
      ((LRUK.init 10 2).recordAccess 5).histSize ∧
    (((LRUK.init 10 2).recordAccess 5).removeFrame 5).bufSize =
      ((LRUK.init 10 2).recordAccess 5).bufSize ∧
    (((LRUK.init 10 2).recordAccess 5).removeFrame 5).hist =
      ((LRUK.init 10 2).recordAccess 5).hist ∧
    (((LRUK.init 10 2).recordAccess 5).removeFrame 5).buf =
      ((LRUK.init 10 2).recordAccess 5).buf ∧
    (((LRUK.init 10 2).recordAccess 5).removeFrame 5).entries 5 = none ∧
    ((((LRUK.init 10 2).recordAccess 5).removeFrame 5).recordAccess 5).entries 5 =
      some ⟨1, false⟩ :=
  c10_remove_nonevictable ((LRUK.init 10 2).recordAccess 5) 5 ⟨1, false⟩ rfl rfl

/-! ### Claims C8 and C9 -/

/-- In a replacer whose counters agree with its lists, `EvictInternal` fails
exactly when `Size() == 0`. -/
theorem evictInternal_none_iff (r : LRUK) (h : r.listsOk) :
    r.evictInternal = none ↔ r.sizeR = 0 := by
  obtain ⟨h1, h2⟩ := h
  unfold LRUK.evictInternal
  constructor
  · intro he
    by_contra hs
    rw [if_neg hs] at he
    by_cases hh : r.histSize ≠ 0
    · rw [if_pos hh] at he
      have : r.hist ≠ [] := by
        intro hnil
        exact hh (by rw [h1, hnil]; rfl)
      rcases List.getLast?_isSome.2 this |> Option.isSome_iff_exists.1 with ⟨v, hv⟩
      rw [hv] at he
      exact Option.noConfusion he
    · rw [if_neg hh] at he
      push_neg at hh
      have hb : r.bufSize ≠ 0 := by
        intro hb0
        exact hs (by simp [LRUK.sizeR, hh, hb0])
      have : r.buf ≠ [] := by
        intro hnil
        exact hb (by rw [h2, hnil]; rfl)
      rcases List.getLast?_isSome.2 this |> Option.isSome_iff_exists.1 with ⟨v, hv⟩
      rw [hv] at he
      exact Option.noConfusion he
  · intro hs
    rw [if_pos hs]

/-- The two branches of the dirty write-back inside the eviction path. -/
theorem evictPath_spec (b : BPM) (fid : Nat) (r2 : LRUK) :
    (b.evictPath fid r2).repl = r2 ∧
    (b.evictPath fid r2).pageTable = ptRemove b.pageTable (b.getFrame fid).pageId ∧
    (b.evictPath fid r2).disk = (if (b.getFrame fid).dirty = true
        then diskWrite b.disk (b.getFrame fid).pageId (b.getFrame fid).data
        else b.disk) ∧
    ((b.evictPath fid r2).getFrame fid).dirty = false ∧
    (b.evictPath fid r2).freeList = b.freeList ∧
    (b.evictPath fid r2).nextPid = b.nextPid := by
  unfold BPM.evictPath BPM.getFrame BPM.setFrame
  by_cases hd : (b.frames fid).dirty = true
  · simp [hd]
  · have hd2 : (b.frames fid).dirty = false := by
      cases hx : (b.frames fid).dirty
      · rfl
      · exact absurd hx hd
    simp [hd2]

/-- C8: the available-frame policy.  (1) A non-empty free list is popped at
the front and nothing else changes.  (2) Otherwise, when the replacer evicts
a victim, the result is the eviction path: the victim frame is written to
disk first iff it is dirty (its dirty flag cleared), and the victim's page-id
binding is removed from the page table (see `evictPath_spec`, restated
here).  (3) The helper fails exactly when the free list is empty and nothing
is evictable, and (4) `NewPage` (always) and `FetchPage` (on a non-resident
page) return null exactly in that situation. -/
theorem c8_available_frame_policy (b : BPM) (hrepl : b.repl.listsOk) :
    (∀ f rest, b.freeList = f :: rest →
        b.getAvailableFrame = some (f, { b with freeList := rest })) ∧
    (∀ fid r2, b.freeList = [] → b.repl.evictInternal = some (fid, r2) →
        b.getAvailableFrame = some (fid, b.evictPath fid r2) ∧
        (b.evictPath fid r2).repl = r2 ∧
        (b.evictPath fid r2).pageTable = ptRemove b.pageTable (b.getFrame fid).pageId ∧
        (b.evictPath fid r2).disk = (if (b.getFrame fid).dirty = true
            then diskWrite b.disk (b.getFrame fid).pageId (b.getFrame fid).data
            else b.disk) ∧
        ((b.evictPath fid r2).getFrame fid).dirty = false ∧
        (b.evictPath fid r2).freeList = b.freeList ∧
        (b.evictPath fid r2).nextPid = b.nextPid) ∧
    (b.getAvailableFrame = none ↔ b.freeList = [] ∧ b.repl.sizeR = 0) ∧
    ((b.newPgImp).1 = none ↔ b.freeList = [] ∧ b.repl.sizeR = 0) ∧
    (∀ pid, b.pageTable pid = none →
        ((b.fetchPgImp pid).1 = none ↔ b.freeList = [] ∧ b.repl.sizeR = 0)) := by
  have hfail : b.getAvailableFrame = none ↔ b.freeList = [] ∧ b.repl.sizeR = 0 := by
    unfold BPM.getAvailableFrame
    rcases hfl : b.freeList with - | ⟨f, rest⟩
    · cases hev : b.repl.evictInternal with
      | none =>
        constructor
        · intro h
          exact ⟨rfl, (evictInternal_none_iff b.repl hrepl).1 hev⟩
        · intro h
          rfl
      | some p =>
        constructor
        · intro hcon
          exact Option.noConfusion hcon
        · rintro ⟨-, hsz⟩
          rw [(evictInternal_none_iff b.repl hrepl).2 hsz] at hev
          exact Option.noConfusion hev
    · constructor
      · intro hcon
        exact Option.noConfusion hcon
      · rintro ⟨hcon, -⟩
        exact List.noConfusion hcon
  refine ⟨?_, ?_, hfail, ?_, ?_⟩
  · intro f rest hfl
    unfold BPM.getAvailableFrame
    rw [hfl]
  · intro fid r2 hfl hev
    refine ⟨?_, evictPath_spec b fid r2⟩
    unfold BPM.getAvailableFrame
    rw [hfl, hev]
  · unfold BPM.newPgImp
    cases hga : b.getAvailableFrame with
    | none =>
      simpa using hfail.1 hga
    | some p =>
      constructor
      · intro hcon
        exact Option.noConfusion hcon
      · intro hsz
        rw [hfail.2 hsz] at hga
        exact Option.noConfusion hga
  · intro pid hres
    unfold BPM.fetchPgImp
    rw [hres]
    cases hga : b.getAvailableFrame with
    | none =>
      simpa using hfail.1 hga
    | some p =>
      constructor
      · intro hcon
        exact Option.noConfusion hcon
      · intro hsz
        rw [hfail.2 hsz] at hga
        exact Option.noConfusion hga

/-- Witness for C8 at a concrete pool of two frames: the free list `[0, 1]`
is popped at the front. -/
theorem c8_available_frame_policy_witness :
    (BPM.init 2 2).getAvailableFrame = some (0, { BPM.init 2 2 with freeList := [1] }) :=
  (c8_available_frame_policy (BPM.init 2 2) ⟨rfl, rfl⟩).1 0 [1] rfl

/-- C9: when no frame is available (free list empty, nothing evictable),
`NewPgImp` returns null and the returned state is exactly the input state:
`next_page_id_` is not advanced and the page table, free list, replacer,
frames and disk are untouched. -/
theorem c9_newpage_failure_no_change (b : BPM) (hrepl : b.repl.listsOk)
    (hfree : b.freeList = []) (hev : b.repl.sizeR = 0) :
    b.newPgImp = (none, b) := by
  unfold BPM.newPgImp
  have : b.getAvailableFrame = none := by
    unfold BPM.getAvailableFrame
    rw [hfree, (evictInternal_none_iff b.repl hrepl).2 hev]
  rw [this]

/-- Witness for C9: a pool with a single frame whose only page is pinned
(created by one `NewPage`): the next `NewPage` fails and changes nothing. -/
theorem c9_newpage_failure_no_change_witness :
    ((BPM.init 1 2).newPgImp).2.newPgImp = (none, ((BPM.init 1 2).newPgImp).2) :=
  c9_newpage_failure_no_change ((BPM.init 1 2).newPgImp).2 ⟨rfl, rfl⟩ rfl rfl

/-! ### Claims C6 and C7: supporting lemmas -/

theorem mod_two_pow_succ (x d : Nat) :
    x % 2 ^ (d + 1) = x % 2 ^ d + 2 ^ d * (x / 2 ^ d % 2) := by
  rw [pow_succ, Nat.mod_mul]

theorem mod_two_pow_succ_cases (x d : Nat) :
    x % 2 ^ (d + 1) = x % 2 ^ d ∨ x % 2 ^ (d + 1) = x % 2 ^ d + 2 ^ d := by
  rcases Nat.mod_two_eq_zero_or_one (x / 2 ^ d) with hc | hc
  · left
    rw [mod_two_pow_succ, hc, Nat.mul_zero, Nat.add_zero]
  · right
    rw [mod_two_pow_succ, hc, Nat.mul_one]

theorem mod_pow_mod (x : Nat) {a b : Nat} (hab : a ≤ b) : x % 2 ^ b % 2 ^ a = x % 2 ^ a :=
  Nat.mod_mod_of_dvd x (pow_dvd_pow 2 hab)

theorem mod_two_pow_succ_eq_of (x y d : Nat) (hlow : x % 2 ^ d = y % 2 ^ d)
    (hx : x % 2 ^ (d + 1) ≠ x % 2 ^ d) (hy : y % 2 ^ (d + 1) ≠ y % 2 ^ d) :
    x % 2 ^ (d + 1) = y % 2 ^ (d + 1) := by
  rcases mod_two_pow_succ_cases x d with h1 | h1
  · exact absurd h1 hx
  · rcases mod_two_pow_succ_cases y d with h2 | h2
    · exact absurd h2 hy
    · rw [h1, h2, hlow]

theorem bkFind_eq_none_of_not_mem (l : List (Nat × Nat)) (key : Nat)
    (hnm : key ∉ l.map Prod.fst) : bkFind l key = none := by
  induction l with
  | nil => rfl
  | cons kv rest ih =>
    rcases kv with ⟨k, v⟩
    simp only [List.map_cons, List.mem_cons] at hnm
    push_neg at hnm
    have hk : ¬ k = key := fun hc => hnm.1 hc.symm
    show (if k = key then some v else bkFind rest key) = none
    rw [if_neg hk]
    exact ih hnm.2

theorem bkFind_append (a b : List (Nat × Nat)) (key : Nat) :
    bkFind (a ++ b) key =
      match bkFind a key with
      | some v => some v
      | none => bkFind b key := by
  induction a with
  | nil => rfl
  | cons kv rest ih =>
    rcases kv with ⟨k, v⟩
    by_cases hk : k = key
    · simp [bkFind, hk]
    · simp only [List.cons_append, bkFind, if_neg hk]
      exact ih

theorem bkOverwrite_none (l : List (Nat × Nat)) (key val : Nat) :
    bkOverwrite l key val = none ↔ key ∉ l.map Prod.fst := by
  induction l with
  | nil => simp [bkOverwrite]
  | cons kv rest ih =>
    rcases kv with ⟨k, v⟩
    by_cases hk : k = key
    · simp [bkOverwrite, hk]
    · simp only [bkOverwrite, if_neg hk, Option.map_eq_none', List.map_cons, List.mem_cons]
      rw [ih]
      constructor
      · rintro hnm (hc | hc)
        · exact hk hc.symm
        · exact hnm hc
      · intro hnm hc
        exact hnm (Or.inr hc)

theorem bkOverwrite_some (l l2 : List (Nat × Nat)) (key val : Nat)
    (hov : bkOverwrite l key val = some l2) :
    (∀ x, bkFind l2 x = if x = key then some val else bkFind l x) ∧
    l2.map Prod.fst = l.map Prod.fst ∧
    l2.length = l.length ∧
    (∀ kv, kv ∈ l2 → kv.1 = key ∨ kv ∈ l) := by
  induction l generalizing l2 with
  | nil => exact absurd hov (by simp [bkOverwrite])
  | cons kv rest ih =>
    rcases kv with ⟨k, v⟩
    by_cases hk : k = key
    · rw [bkOverwrite, if_pos hk] at hov
      cases hov
      refine ⟨?_, by simp, rfl, ?_⟩
      · intro x
        by_cases hx : x = key
        · subst hx
          rw [if_pos rfl]
          simp [bkFind, hk]
        · rw [if_neg hx]
          have hkx : ¬ k = x := fun hc => hx (hc ▸ hk)
          simp only [bkFind, if_neg hkx]
      · intro kv2 hkv2
        rcases List.mem_cons.1 hkv2 with hc | hc
        · left
          rw [hc, hk]
        · right
          exact List.mem_cons_of_mem _ hc
    · rw [bkOverwrite, if_neg hk] at hov
      rcases Option.map_eq_some'.1 hov with ⟨l2x, hov2, rfl⟩
      obtain ⟨hfind, hmap, hlen, hmem⟩ := ih l2x hov2
      refine ⟨?_, by simp [hmap], by simp [hlen], ?_⟩
      · intro x
        by_cases hkx : k = x
        · subst hkx
          rw [if_neg (fun hc => hk hc)]
          simp [bkFind]
        · simp only [bkFind, if_neg hkx]
          exact hfind x
      · intro kv2 hkv2
        rcases List.mem_cons.1 hkv2 with hc | hc
        · right
          rw [hc]
          exact List.mem_cons_self _ _
        · rcases hmem kv2 hc with hx | hx
          · exact Or.inl hx
          · exact Or.inr (List.mem_cons_of_mem _ hx)

theorem bkRemove_sublist (l : List (Nat × Nat)) (key : Nat) : (bkRemove l key).2.Sublist l := by
  induction l with
  | nil => exact List.Sublist.refl _
  | cons kv rest ih =>
    rcases kv with ⟨k, v⟩
    by_cases hk : k = key
    · simp only [bkRemove, if_pos hk]
      exact List.sublist_cons_self _ _
    · simp only [bkRemove, if_neg hk]
      exact List.Sublist.cons₂ _ ih

theorem bkRemove_find (l : List (Nat × Nat)) (key : Nat) (hnd : (l.map Prod.fst).Nodup) :
    ∀ x, bkFind (bkRemove l key).2 x = if x = key then none else bkFind l x := by
  induction l with
  | nil =>
    intro x
    by_cases hx : x = key <;> simp [bkRemove, bkFind, hx]
  | cons kv rest ih =>
    rcases kv with ⟨k, v⟩
    simp only [List.map_cons, List.nodup_cons] at hnd
    intro x
    by_cases hk : k = key
    · simp only [bkRemove, if_pos hk]
      by_cases hx : x = key
      · subst hx
        rw [if_pos rfl]
        apply bkFind_eq_none_of_not_mem
        rw [← hk]
        exact hnd.1
      · rw [if_neg hx]
        have hkx : ¬ k = x := fun hc => hx (by rw [← hc, hk])
        show bkFind rest x = if k = x then some v else bkFind rest x
        rw [if_neg hkx]
    · simp only [bkRemove, if_neg hk]
      by_cases hkx : k = x
      · subst hkx
        rw [if_neg (fun hc => hk hc)]
        simp [bkFind]
      · have hrec := ih hnd.2 x
        show bkFind ((k, v) :: (bkRemove rest key).2) x
              = if x = key then none else bkFind ((k, v) :: rest) x
        simp only [bkFind, if_neg hkx]
        rw [hrec]

theorem bkInsert_none (B : Nat) (l : List (Nat × Nat)) (key val : Nat) :
    bkInsert B l key val = none ↔ B ≤ l.length := by
  unfold bkInsert
  by_cases hb : B ≤ l.length
  · simp [hb]
  · simp only [if_neg hb]
    cases hov : bkOverwrite l key val <;> simp [hb]

theorem bkInsert_some (B : Nat) (l l2 : List (Nat × Nat)) (key val : Nat)
    (hins : bkInsert B l key val = some l2) :
    (∀ x, bkFind l2 x = if x = key then some val else bkFind l x) ∧
    (∀ kv, kv ∈ l2 → kv.1 = key ∨ kv ∈ l) ∧
    ((l.map Prod.fst).Nodup → (l2.map Prod.fst).Nodup) ∧
    l2.length ≤ B := by
  unfold bkInsert at hins
  by_cases hb : B ≤ l.length
  · rw [if_pos hb] at hins
    exact absurd hins (by simp)
  · rw [if_neg hb] at hins
    push_neg at hb
    cases hov : bkOverwrite l key val with
    | some lx =>
      rw [hov] at hins
      cases hins
      obtain ⟨hfind, hmap, hlen, hmem⟩ := bkOverwrite_some l _ key val hov
      exact ⟨hfind, hmem, fun hnd => hmap ▸ hnd, by omega⟩
    | none =>
      rw [hov] at hins
      cases hins
      have hnm : key ∉ l.map Prod.fst := (bkOverwrite_none l key val).1 hov
      refine ⟨?_, ?_, ?_, ?_⟩
      · intro x
        rw [bkFind_append]
        by_cases hx : x = key
        · subst hx
          rw [bkFind_eq_none_of_not_mem l x hnm]
          simp [bkFind]
        · rw [if_neg hx]
          cases hf : bkFind l x with
          | some v2 => rfl
          | none =>
            show bkFind [(key, val)] x = none
            have : ¬ key = x := fun hc => hx hc.symm
            simp [bkFind, this]
      · intro kv hkv
        rcases List.mem_append.1 hkv with hc | hc
        · exact Or.inr hc
        · left
          have : kv = (key, val) := by simpa using hc
          rw [this]
      · intro hnd
        rw [List.map_append]
        rw [List.nodup_append]
        refine ⟨hnd, by simp, ?_⟩
        intro x hx hx2
        simp only [List.map_cons, List.map_nil, List.mem_cons] at hx2
        rcases hx2 with hc | hc
        · exact hnm (hc ▸ hx)
        · exact absurd hc (List.not_mem_nil x)
      · simp only [List.length_append, List.length_cons, List.length_nil]
        omega

theorem bkFind_filter (l : List (Nat × Nat)) (p : Nat × Nat → Bool) (key : Nat)
    (hp : ∀ kv, kv ∈ l → kv.1 = key → p kv = true) :
    bkFind (l.filter p) key = bkFind l key := by
  induction l with
  | nil => rfl
  | cons kv rest ih =>
    rcases kv with ⟨k, v⟩
    have ihr := ih (fun kv2 h2 => hp kv2 (List.mem_cons_of_mem _ h2))
    by_cases hk : k = key
    · have hpk : p (k, v) = true := hp (k, v) (List.mem_cons_self _ _) hk
      rw [List.filter_cons, if_pos hpk]
      simp [bkFind, hk]
    · rw [List.filter_cons]
      by_cases hpk : p (k, v) = true
      · rw [if_pos hpk]
        simp only [bkFind, if_neg hk]
        exact ihr
      · rw [if_neg hpk]
        rw [ihr]
        simp only [bkFind, if_neg hk]

theorem getD_set_self (l : List Nat) (i : Nat) (a : Nat) (hi : i < l.length) :
    (l.set i a).getD i 0 = a := by
  rw [List.getD_eq_getElem?_getD, List.getElem?_set, if_pos rfl, if_pos hi]
  rfl

theorem getD_set_ne (l : List Nat) (i j : Nat) (a : Nat) (hij : i ≠ j) :
    (l.set i a).getD j 0 = l.getD j 0 := by
  rw [List.getD_eq_getElem?_getD, List.getElem?_set, if_neg hij, ← List.getD_eq_getElem?_getD]

theorem bkGetD_set_self (l : List BK) (i : Nat) (a : BK) (hi : i < l.length) :
    (l.set i a).getD i ⟨[], 0⟩ = a := by
  rw [List.getD_eq_getElem?_getD, List.getElem?_set, if_pos rfl, if_pos hi]
  rfl

theorem bkGetD_set_ne (l : List BK) (i j : Nat) (a : BK) (hij : i ≠ j) :
    (l.set i a).getD j ⟨[], 0⟩ = l.getD j ⟨[], 0⟩ := by
  rw [List.getD_eq_getElem?_getD, List.getElem?_set, if_neg hij, ← List.getD_eq_getElem?_getD]

theorem bkSet_of_getD (l : List BK) (i : Nat) (a : BK) (ha : l.getD i ⟨[], 0⟩ = a) :
    l.set i a = l := by
  induction l generalizing i with
  | nil => rfl
  | cons x rest ih =>
    cases i with
    | zero =>
      simp only [List.getD_cons_zero] at ha
      rw [List.set_cons_zero, ha]
    | succ n =>
      simp only [List.getD_cons_succ] at ha
      rw [List.set_cons_succ, ih n ha]

theorem foldl_set_length (q : List Nat) (l0 : List Nat) (nbv : Nat) :
    (q.foldl (fun dir i => dir.set i nbv) l0).length = l0.length := by
  induction q generalizing l0 with
  | nil => rfl
  | cons q0 rest ih =>
    rw [List.foldl_cons, ih, List.length_set]

theorem foldl_set_getD (q : List Nat) (l0 : List Nat) (nbv : Nat) (j : Nat)
    (hq : ∀ x ∈ q, x < l0.length) :
    (q.foldl (fun dir i => dir.set i nbv) l0).getD j 0 =
      if j ∈ q then nbv else l0.getD j 0 := by
  induction q generalizing l0 with
  | nil => simp
  | cons q0 rest ih =>
    rw [List.foldl_cons]
    rw [ih (l0.set q0 nbv) (fun x hx => by
      rw [List.length_set]
      exact hq x (List.mem_cons_of_mem _ hx))]
    by_cases hj : j ∈ rest
    · rw [if_pos hj, if_pos (List.mem_cons_of_mem _ hj)]
    · rw [if_neg hj]
      by_cases hjq : j = q0
      · subst hjq
        rw [if_pos (List.mem_cons_self _ _)]
        exact getD_set_self l0 j nbv (hq j (List.mem_cons_self _ _))
      · rw [if_neg (fun hc => by
          rcases List.mem_cons.1 hc with hc2 | hc2
          · exact hjq hc2
          · exact hj hc2)]
        exact getD_set_ne l0 q0 j nbv (fun hc => hjq hc.symm)

theorem setBucket_bidAt (t : HT) (bid : Nat) (bk : BK) (i : Nat) :
    (t.setBucket bid bk).bidAt i = t.bidAt i := rfl

theorem setBucket_lengths (t : HT) (bid : Nat) (bk : BK) :
    (t.setBucket bid bk).dir = t.dir ∧ (t.setBucket bid bk).g = t.g ∧
    (t.setBucket bid bk).bsize = t.bsize ∧
    (t.setBucket bid bk).buckets.length = t.buckets.length ∧
    (t.setBucket bid bk).numBuckets = t.numBuckets := by
  refine ⟨rfl, rfl, rfl, ?_, rfl⟩
  simp [HT.setBucket]

theorem bucketAt_setBucket (t : HT) (bid : Nat) (bk : BK) (i : Nat)
    (hbid : bid < t.buckets.length) :
    (t.setBucket bid bk).bucketAt i = if t.bidAt i = bid then bk else t.bucketAt i := by
  show (t.buckets.set bid bk).getD (t.bidAt i) ⟨[], 0⟩ = _
  by_cases he : t.bidAt i = bid
  · rw [he, if_pos rfl]
    exact bkGetD_set_self t.buckets bid bk hbid
  · rw [if_neg he]
    exact bkGetD_set_ne t.buckets bid (t.bidAt i) bk (fun hc => he hc.symm)

theorem setBucket_setBucket (t : HT) (bid : Nat) (a b : BK) :
    (t.setBucket bid a).setBucket bid b = t.setBucket bid b := by
  unfold HT.setBucket
  rw [List.set_set]

theorem double_setBucket (t : HT) (bid : Nat) (a : BK) :
    (t.setBucket bid a).double = t.double.setBucket bid a := rfl

theorem wf_indexLt {h : Nat → Nat} {t : HT} (hwf : t.wf h) (k : Nat) :
    t.indexOf h k < t.dir.length := by
  rw [hwf.dirLen]
  exact Nat.mod_lt _ (Nat.two_pow_pos _)

/-- Replacing the items of the bucket at slot `i0` preserves well-formedness,
provided the new items hash into the slot's class, have distinct keys, and
fit in a bucket. -/
theorem update_items_wf (h : Nat → Nat) (t : HT) (i0 : Nat) (items2 : List (Nat × Nat))
    (hwf : t.wf h) (hi0 : i0 < t.dir.length)
    (hcls : ∀ kv, kv ∈ items2 →
      h kv.1 % 2 ^ (t.bucketAt i0).depth = i0 % 2 ^ (t.bucketAt i0).depth)
    (hnd : (items2.map Prod.fst).Nodup)
    (hlen : items2.length ≤ t.bsize) :
    (t.setBucket (t.bidAt i0) { t.bucketAt i0 with items := items2 }).wf h ∧
    (∀ j, (t.setBucket (t.bidAt i0) { t.bucketAt i0 with items := items2 }).bucketAt j
      = if t.bidAt j = t.bidAt i0 then { t.bucketAt i0 with items := items2 }
        else t.bucketAt j) := by
  have hbid : t.bidAt i0 < t.buckets.length := hwf.bidLt _ hi0
  have hBA := fun j => bucketAt_setBucket t (t.bidAt i0) { t.bucketAt i0 with items := items2 } j hbid
  have hsame : ∀ j, t.bidAt j = t.bidAt i0 → t.bucketAt j = t.bucketAt i0 := by
    intro j hj
    show t.buckets.getD (t.bidAt j) _ = _
    rw [hj]
    rfl
  have hdepth2 : ∀ j,
      ((t.setBucket (t.bidAt i0) { t.bucketAt i0 with items := items2 }).bucketAt j).depth
        = (t.bucketAt j).depth := by
    intro j
    rw [hBA j]
    by_cases hc : t.bidAt j = t.bidAt i0
    · rw [if_pos hc, hsame j hc]
    · rw [if_neg hc]
  refine ⟨⟨hwf.dirLen, ?_, ?_, ?_, ?_, ?_, ?_⟩, hBA⟩
  · intro j hj
    have h1 := hwf.bidLt j hj
    have h2 : (t.setBucket (t.bidAt i0) { t.bucketAt i0 with items := items2 }).buckets.length
        = t.buckets.length := by
      simp [HT.setBucket]
    rw [h2]
    exact h1
  · intro j hj
    rw [hdepth2 j]
    exact hwf.depthLe j hj
  · intro j hj j2 hj2
    rw [hdepth2 j]
    exact hwf.share j hj j2 hj2
  · intro j hj kv hkv
    rw [hdepth2 j]
    rw [hBA j] at hkv
    by_cases hc : t.bidAt j = t.bidAt i0
    · rw [if_pos hc] at hkv
      have hkv2 : kv ∈ items2 := hkv
      have e1 : h kv.1 % 2 ^ (t.bucketAt i0).depth = i0 % 2 ^ (t.bucketAt i0).depth :=
        hcls kv hkv2
      have e2 : i0 % 2 ^ (t.bucketAt i0).depth = j % 2 ^ (t.bucketAt i0).depth := by
        have hs := hwf.share i0 hi0 j hj
        exact hs.1 hc.symm
      have e3 : (t.bucketAt j).depth = (t.bucketAt i0).depth := by
        rw [hsame j hc]
      rw [e3]
      exact e1.trans e2
    · rw [if_neg hc] at hkv
      exact hwf.inClass j hj kv hkv
  · intro j hj
    rw [hBA j]
    by_cases hc : t.bidAt j = t.bidAt i0
    · rw [if_pos hc]
      exact hnd
    · rw [if_neg hc]
      exact hwf.nodup j hj
  · intro j hj
    rw [hBA j]
    by_cases hc : t.bidAt j = t.bidAt i0
    · rw [if_pos hc]
      exact hlen
    · rw [if_neg hc]
      exact hwf.bounded j hj

/-- A successful `Bucket::Insert` (no split) preserves well-formedness and
realises the map update. -/
theorem insert_success_spec (h : Nat → Nat) (t : HT) (k v : Nat)
    (items2 : List (Nat × Nat)) (hwf : t.wf h)
    (hins : bkInsert t.bsize (t.bucketAt (t.indexOf h k)).items k v = some items2) :
    (t.setBucket (t.bidAt (t.indexOf h k))
        { t.bucketAt (t.indexOf h k) with items := items2 }).wf h ∧
    (∀ key, (t.setBucket (t.bidAt (t.indexOf h k))
        { t.bucketAt (t.indexOf h k) with items := items2 }).find h key
      = if key = k then some v else t.find h key) := by
  have hi0 : t.indexOf h k < t.dir.length := wf_indexLt hwf k
  obtain ⟨hfind, hmem, hnd2, hlen⟩ :=
    bkInsert_some t.bsize (t.bucketAt (t.indexOf h k)).items items2 k v hins
  have hdep : (t.bucketAt (t.indexOf h k)).depth ≤ t.g := hwf.depthLe _ hi0
  have hcls : ∀ kv, kv ∈ items2 →
      h kv.1 % 2 ^ (t.bucketAt (t.indexOf h k)).depth
        = t.indexOf h k % 2 ^ (t.bucketAt (t.indexOf h k)).depth := by
    intro kv hkv
    rcases hmem kv hkv with hk1 | hk1
    · rw [hk1]
      show h k % 2 ^ _ = h k % 2 ^ t.g % 2 ^ _
      rw [mod_pow_mod _ hdep]
    · exact hwf.inClass _ hi0 kv hk1
  obtain ⟨hwf2, hBA⟩ := update_items_wf h t (t.indexOf h k) items2 hwf hi0 hcls
    (hnd2 (hwf.nodup _ hi0)) hlen
  refine ⟨hwf2, ?_⟩
  intro key
  show bkFind ((t.setBucket (t.bidAt (t.indexOf h k))
      { t.bucketAt (t.indexOf h k) with items := items2 }).bucketAt (t.indexOf h key)).items key
    = _
  rw [hBA (t.indexOf h key)]
  by_cases hc : t.bidAt (t.indexOf h key) = t.bidAt (t.indexOf h k)
  · rw [if_pos hc]
    show bkFind items2 key = _
    rw [hfind key]
    have he : t.find h key = bkFind (t.bucketAt (t.indexOf h k)).items key := by
      unfold HT.find
      have : t.bucketAt (t.indexOf h key) = t.bucketAt (t.indexOf h k) := by
        show t.buckets.getD (t.bidAt (t.indexOf h key)) _ = _
        rw [hc]
        rfl
      rw [this]
    rw [he]
  · rw [if_neg hc]
    have hne : ¬ key = k := by
      intro hkk
      rw [hkk] at hc
      exact hc rfl
    rw [if_neg hne]
    rfl

/-- `Remove` preserves well-formedness and erases exactly the given key. -/
theorem remove_spec (h : Nat → Nat) (t : HT) (k : Nat) (hwf : t.wf h) :
    (t.remove h k).wf h ∧
    (∀ key, (t.remove h k).find h key = if key = k then none else t.find h key) := by
  have hi0 : t.indexOf h k < t.dir.length := wf_indexLt hwf k
  have hsub := bkRemove_sublist (t.bucketAt (t.indexOf h k)).items k
  have hnd0 := hwf.nodup _ hi0
  have hcls : ∀ kv, kv ∈ (bkRemove (t.bucketAt (t.indexOf h k)).items k).2 →
      h kv.1 % 2 ^ (t.bucketAt (t.indexOf h k)).depth
        = t.indexOf h k % 2 ^ (t.bucketAt (t.indexOf h k)).depth := by
    intro kv hkv
    exact hwf.inClass _ hi0 kv (hsub.mem hkv)
  obtain ⟨hwf2, hBA⟩ := update_items_wf h t (t.indexOf h k)
    (bkRemove (t.bucketAt (t.indexOf h k)).items k).2 hwf hi0 hcls
    ((hsub.map Prod.fst).nodup hnd0)
    (le_trans hsub.length_le (hwf.bounded _ hi0))
  have hrm : t.remove h k = t.setBucket (t.bidAt (t.indexOf h k))
      { t.bucketAt (t.indexOf h k) with items := (bkRemove (t.bucketAt (t.indexOf h k)).items k).2 } := rfl
  refine ⟨hrm ▸ hwf2, ?_⟩
  intro key
  rw [hrm]
  show bkFind ((t.setBucket (t.bidAt (t.indexOf h k))
      { t.bucketAt (t.indexOf h k) with
          items := (bkRemove (t.bucketAt (t.indexOf h k)).items k).2 }).bucketAt
        (t.indexOf h key)).items key = _
  rw [hBA (t.indexOf h key)]
  by_cases hc : t.bidAt (t.indexOf h key) = t.bidAt (t.indexOf h k)
  · rw [if_pos hc]
    show bkFind (bkRemove (t.bucketAt (t.indexOf h k)).items k).2 key = _
    rw [bkRemove_find _ k hnd0 key]
    have he : t.find h key = bkFind (t.bucketAt (t.indexOf h k)).items key := by
      unfold HT.find
      have : t.bucketAt (t.indexOf h key) = t.bucketAt (t.indexOf h k) := by
        show t.buckets.getD (t.bidAt (t.indexOf h key)) _ = _
        rw [hc]
        rfl
      rw [this]
    rw [he]
  · rw [if_neg hc]
    have hne : ¬ key = k := by
      intro hkk
      rw [hkk] at hc
      exact hc rfl
    rw [if_neg hne]
    rfl

/-- Doubling the directory preserves well-formedness and every lookup. -/
theorem double_wf (h : Nat → Nat) (t : HT) (hwf : t.wf h) :
    t.double.wf h ∧ (∀ key, t.double.find h key = t.find h key) ∧
    (∀ i, i < 2 ^ (t.g + 1) → t.double.bucketAt i = t.bucketAt (i % 2 ^ t.g)) ∧
    (∀ i, i < 2 ^ (t.g + 1) → t.double.bidAt i = t.bidAt (i % 2 ^ t.g)) := by
  have hlen2 : t.double.dir.length = 2 ^ (t.g + 1) := by
    show (t.dir ++ t.dir).length = 2 ^ (t.g + 1)
    rw [List.length_append, hwf.dirLen, pow_succ]
    omega
  have hbid2 : ∀ i, i < 2 ^ (t.g + 1) → t.double.bidAt i = t.bidAt (i % 2 ^ t.g) := by
    intro i hi
    show (t.dir ++ t.dir).getD i 0 = t.dir.getD (i % 2 ^ t.g) 0
    rw [List.getD_eq_getElem?_getD, List.getD_eq_getElem?_getD, List.getElem?_append]
    by_cases hlt : i < t.dir.length
    · rw [if_pos hlt]
      rw [Nat.mod_eq_of_lt (by rw [← hwf.dirLen]; exact hlt)]
    · rw [if_neg hlt]
      push_neg at hlt
      have hsub : i % 2 ^ t.g = i - t.dir.length := by
        rw [hwf.dirLen] at hlt ⊢
        rw [Nat.mod_eq_sub_mod hlt, Nat.mod_eq_of_lt]
        rw [pow_succ] at hi
        omega
      rw [hsub]
  have hbkt2 : ∀ i, i < 2 ^ (t.g + 1) → t.double.bucketAt i = t.bucketAt (i % 2 ^ t.g) := by
    intro i hi
    show t.buckets.getD (t.double.bidAt i) _ = t.buckets.getD (t.bidAt (i % 2 ^ t.g)) _
    rw [hbid2 i hi]
  have hmodlt : ∀ i : Nat, i % 2 ^ t.g < t.dir.length := by
    intro i
    rw [hwf.dirLen]
    exact Nat.mod_lt _ (Nat.two_pow_pos _)
  refine ⟨⟨hlen2, ?_, ?_, ?_, ?_, ?_, ?_⟩, ?_, hbkt2, hbid2⟩
  · intro i hi
    rw [hlen2] at hi
    rw [hbid2 i hi]
    show t.bidAt (i % 2 ^ t.g) < t.buckets.length
    exact hwf.bidLt _ (hmodlt i)
  · intro i hi
    rw [hlen2] at hi
    rw [hbkt2 i hi]
    show (t.bucketAt (i % 2 ^ t.g)).depth ≤ t.g + 1
    exact le_trans (hwf.depthLe _ (hmodlt i)) (Nat.le_succ _)
  · intro i hi j hj
    rw [hlen2] at hi hj
    rw [hbid2 i hi, hbid2 j hj, hbkt2 i hi]
    have hdep := hwf.depthLe _ (hmodlt i)
    have hs := hwf.share (i % 2 ^ t.g) (hmodlt i) (j % 2 ^ t.g) (hmodlt j)
    rw [mod_pow_mod i hdep, mod_pow_mod j hdep] at hs
    exact hs
  · intro i hi kv hkv
    rw [hlen2] at hi
    rw [hbkt2 i hi] at hkv ⊢
    have hdep := hwf.depthLe _ (hmodlt i)
    have hcl := hwf.inClass (i % 2 ^ t.g) (hmodlt i) kv hkv
    rw [mod_pow_mod i hdep] at hcl
    exact hcl
  · intro i hi
    rw [hlen2] at hi
    rw [hbkt2 i hi]
    exact hwf.nodup _ (hmodlt i)
  · intro i hi
    rw [hlen2] at hi
    rw [hbkt2 i hi]
    exact hwf.bounded _ (hmodlt i)
  · intro key
    show bkFind (t.double.bucketAt (h key % 2 ^ (t.g + 1))).items key = _
    rw [hbkt2 _ (Nat.mod_lt _ (Nat.two_pow_pos _))]
    rw [mod_pow_mod (h key) (Nat.le_succ _)]
    rfl

/-- A slot qualifies for repointing exactly when it lies in the split image
of the overflowing bucket's slot class. -/
theorem mem_repoint_qual (t : HT) (first d i : Nat) :
    (i ∈ (List.range t.dir.length).filter
        (fun i => first + 1 ≤ i ∧ i % 2 ^ d = first ∧ i % 2 ^ (d + 1) ≠ first)) ↔
      (i < t.dir.length ∧ first + 1 ≤ i ∧ i % 2 ^ d = first ∧ i % 2 ^ (d + 1) ≠ first) := by
  rw [List.mem_filter, List.mem_range]
  simp only [decide_eq_true_eq]

/-- The `first + 1 ≤ i` bound of the repoint loop is implied by membership in
the split image: such a slot is at least `first + 2^d`. -/
theorem split_image_ge (i first d : Nat)
    (h1 : i % 2 ^ d = first) (h2 : i % 2 ^ (d + 1) ≠ first) : first + 1 ≤ i := by
  rcases mod_two_pow_succ_cases i d with hc | hc
  · rw [h1] at hc
    exact absurd hc h2
  · have hle : i % 2 ^ (d + 1) ≤ i := Nat.mod_le _ _
    rw [hc, h1] at hle
    have := Nat.two_pow_pos d
    omega

/-- Characterization of `HT.repoint`: when the canonical split-image slot
`first + 2^d` is inside the directory, the fresh bucket is created and the
directory is repointed on exactly the split image. -/
theorem repoint_spec (t : HT) (first d : Nat)
    (hlt : first + 2 ^ d < t.dir.length) (hflt : first < 2 ^ d) :
    (t.repoint first d).g = t.g ∧ (t.repoint first d).bsize = t.bsize ∧
    (t.repoint first d).dir.length = t.dir.length ∧
    (t.repoint first d).buckets = t.buckets ++ [⟨[], d + 1⟩] ∧
    (t.repoint first d).numBuckets = t.numBuckets + 1 ∧
    (∀ j, (t.repoint first d).dir.getD j 0 =
      if j < t.dir.length ∧ j % 2 ^ d = first ∧ j % 2 ^ (d + 1) ≠ first
      then t.buckets.length else t.dir.getD j 0) := by
  have histar1 : (first + 2 ^ d) % 2 ^ d = first := by
    rw [Nat.add_mod_right, Nat.mod_eq_of_lt hflt]
  have histar2 : (first + 2 ^ d) % 2 ^ (d + 1) = first + 2 ^ d := by
    apply Nat.mod_eq_of_lt
    rw [pow_succ]
    have := Nat.two_pow_pos d
    omega
  have histar3 : (first + 2 ^ d) % 2 ^ (d + 1) ≠ first := by
    rw [histar2]
    have := Nat.two_pow_pos d
    omega
  have hmem : (first + 2 ^ d) ∈ (List.range t.dir.length).filter
      (fun i => first + 1 ≤ i ∧ i % 2 ^ d = first ∧ i % 2 ^ (d + 1) ≠ first) := by
    rw [mem_repoint_qual]
    have := Nat.two_pow_pos d
    exact ⟨hlt, by omega, histar1, histar3⟩
  have hqne : ((List.range t.dir.length).filter
      (fun i => first + 1 ≤ i ∧ i % 2 ^ d = first ∧ i % 2 ^ (d + 1) ≠ first)).isEmpty = false := by
    rcases hq : (List.range t.dir.length).filter
        (fun i => first + 1 ≤ i ∧ i % 2 ^ d = first ∧ i % 2 ^ (d + 1) ≠ first) with - | ⟨a, b⟩
    · rw [hq] at hmem
      exact absurd hmem (List.not_mem_nil _)
    · rfl
  have hqsub : ∀ x ∈ (List.range t.dir.length).filter
      (fun i => first + 1 ≤ i ∧ i % 2 ^ d = first ∧ i % 2 ^ (d + 1) ≠ first),
      x < t.dir.length := by
    intro x hx
    exact ((mem_repoint_qual t first d x).1 hx).1
  unfold HT.repoint
  simp only [hqne, Bool.false_eq_true, if_false]
  refine ⟨trivial, trivial, ?_, trivial, trivial, ?_⟩
  · exact foldl_set_length _ _ _
  · intro j
    rw [foldl_set_getD _ _ _ _ hqsub]
    by_cases hc : j < t.dir.length ∧ j % 2 ^ d = first ∧ j % 2 ^ (d + 1) ≠ first
    · rw [if_pos ((mem_repoint_qual t first d j).2
        ⟨hc.1, split_image_ge j first d hc.2.1 hc.2.2, hc.2.1, hc.2.2⟩), if_pos hc]
    · rw [if_neg (fun hm =>
        hc ⟨((mem_repoint_qual t first d j).1 hm).1,
            ((mem_repoint_qual t first d j).1 hm).2.2.1,
            ((mem_repoint_qual t first d j).1 hm).2.2.2⟩), if_neg hc]

/-- The clear + depth-increment + repoint phase of a split, applied to an
overflowing bucket at slot `i0` whose local depth is already strictly below
the global depth (which the optional doubling guarantees).  The old bucket
keeps the slots agreeing with `first` on `d+1` low bits; the fresh bucket
(id `nb`) takes the split image; both are empty with depth `d+1`; every
other slot and bucket is untouched; well-formedness is preserved. -/
theorem split_mid_spec (h : Nat → Nat) (u : HT) (hwf : u.wf h) (i0 bid d first nb : Nat)
    (w : HT)
    (hi0 : i0 < u.dir.length) (hbid : bid = u.bidAt i0) (hd : d = (u.bucketAt i0).depth)
    (hdg : d < u.g) (hfirst : first = i0 % 2 ^ d) (hnb : nb = u.buckets.length)
    (hw : w = (u.setBucket bid ⟨[], d + 1⟩).repoint first d) :
    w.dir.length = u.dir.length ∧ w.g = u.g ∧ w.bsize = u.bsize ∧
    w.buckets.length = u.buckets.length + 1 ∧
    w.numBuckets = u.numBuckets + 1 ∧
    (∀ i, i < u.dir.length →
      w.bucketAt i = if i % 2 ^ d = first then (⟨[], d + 1⟩ : BK) else u.bucketAt i) ∧
    (∀ i, i < u.dir.length → (w.bidAt i = bid ↔ i % 2 ^ (d + 1) = first)) ∧
    (∀ i, i < u.dir.length → (w.bidAt i = nb ↔ (i % 2 ^ d = first ∧ i % 2 ^ (d + 1) ≠ first))) ∧
    w.buckets.getD bid ⟨[], 0⟩ = ⟨[], d + 1⟩ ∧
    w.buckets.getD nb ⟨[], 0⟩ = ⟨[], d + 1⟩ ∧
    bid ≠ nb ∧
    w.wf h := by
  have hbidlt : bid < u.buckets.length := by
    rw [hbid]
    exact hwf.bidLt i0 hi0
  have hflt : first < 2 ^ d := by
    rw [hfirst]
    exact Nat.mod_lt _ (Nat.two_pow_pos _)
  have hL : u.dir.length = 2 ^ u.g := hwf.dirLen
  have h2d := Nat.two_pow_pos d
  have hred : ∀ x : Nat, x % 2 ^ (d + 1) = first → x % 2 ^ d = first := by
    intro x hx
    rw [← mod_pow_mod x (Nat.le_succ d), hx, Nat.mod_eq_of_lt hflt]
  have hup : ∀ x : Nat, x % 2 ^ d = first → x % 2 ^ (d + 1) ≠ first →
      x % 2 ^ (d + 1) = first + 2 ^ d := by
    intro x h1 h2
    rcases mod_two_pow_succ_cases x d with hc | hc
    · rw [h1] at hc
      exact absurd hc h2
    · rw [h1] at hc
      exact hc
  have ubid_iff : ∀ i, i < u.dir.length → (u.bidAt i = bid ↔ i % 2 ^ d = first) := by
    intro i hi
    constructor
    · intro hib
      have hbeq : u.bucketAt i = u.bucketAt i0 := by
        show u.buckets.getD (u.bidAt i) _ = u.buckets.getD (u.bidAt i0) _
        rw [hib, hbid]
      have hs := (hwf.share i hi i0 hi0).1 (by rw [hib, hbid])
      rw [hbeq, ← hd] at hs
      rw [hfirst]
      exact hs
    · intro hif
      have hs := hwf.share i0 hi0 i hi
      rw [← hd] at hs
      have heq : i0 % 2 ^ d = i % 2 ^ d := by rw [hif, hfirst]
      have h2 := hs.2 heq
      rw [← h2, hbid]
  have hw1len : (u.setBucket bid ⟨[], d + 1⟩).buckets.length = u.buckets.length := by
    simp [HT.setBucket]
  have hw1dirlen : (u.setBucket bid ⟨[], d + 1⟩).dir.length = u.dir.length := rfl
  have hlt2 : first + 2 ^ d < (u.setBucket bid ⟨[], d + 1⟩).dir.length := by
    rw [hw1dirlen, hL]
    have h1 : first + 2 ^ d < 2 ^ (d + 1) := by
      rw [pow_succ]
      omega
    have h2 : 2 ^ (d + 1) ≤ 2 ^ u.g := Nat.pow_le_pow_right (by omega) (by omega)
    omega
  obtain ⟨hg2, hbs2, hdl2, hbk2, hnum2, hdir2⟩ :=
    repoint_spec (u.setBucket bid ⟨[], d + 1⟩) first d hlt2 hflt
  rw [← hw] at hg2 hbs2 hdl2 hbk2 hnum2 hdir2
  have hWdirlen : w.dir.length = u.dir.length := by rw [hdl2, hw1dirlen]
  have hWg : w.g = u.g := hg2
  have hWbs : w.bsize = u.bsize := hbs2
  have hWblen : w.buckets.length = u.buckets.length + 1 := by
    rw [hbk2, List.length_append, hw1len]
    rfl
  have hWnum : w.numBuckets = u.numBuckets + 1 := hnum2
  have hWbid : ∀ i, i < u.dir.length →
      w.bidAt i = if i % 2 ^ d = first ∧ i % 2 ^ (d + 1) ≠ first then nb else u.bidAt i := by
    intro i hi
    show w.dir.getD i 0 = _
    rw [hdir2 i]
    by_cases hc : i % 2 ^ d = first ∧ i % 2 ^ (d + 1) ≠ first
    · rw [if_pos (show i < (u.setBucket bid ⟨[], d + 1⟩).dir.length ∧
          i % 2 ^ d = first ∧ i % 2 ^ (d + 1) ≠ first from ⟨hi, hc.1, hc.2⟩),
        if_pos hc, hw1len, ← hnb]
    · rw [if_neg (fun hm => hc ⟨hm.2.1, hm.2.2⟩), if_neg hc]
      rfl
  have hWb_bid : w.buckets.getD bid ⟨[], 0⟩ = ⟨[], d + 1⟩ := by
    rw [hbk2, List.getD_eq_getElem?_getD, List.getElem?_append]
    rw [if_pos (show bid < (u.setBucket bid ⟨[], d + 1⟩).buckets.length by
      rw [hw1len]; exact hbidlt)]
    show (u.buckets.set bid _)[bid]?.getD _ = _
    rw [List.getElem?_set, if_pos rfl, if_pos hbidlt]
    rfl
  have hWb_nb : w.buckets.getD nb ⟨[], 0⟩ = ⟨[], d + 1⟩ := by
    rw [hbk2, List.getD_eq_getElem?_getD, List.getElem?_append]
    rw [if_neg (show ¬ nb < (u.setBucket bid ⟨[], d + 1⟩).buckets.length by
      rw [hw1len, hnb]; omega)]
    have hz : nb - (u.setBucket bid ⟨[], d + 1⟩).buckets.length = 0 := by
      rw [hw1len, hnb]
      omega
    rw [hz]
    rfl
  have hWb_other : ∀ c, c < u.buckets.length → c ≠ bid →
      w.buckets.getD c ⟨[], 0⟩ = u.buckets.getD c ⟨[], 0⟩ := by
    intro c hc1 hc2
    rw [hbk2, List.getD_eq_getElem?_getD, List.getElem?_append]
    rw [if_pos (show c < (u.setBucket bid ⟨[], d + 1⟩).buckets.length by
      rw [hw1len]; exact hc1)]
    show (u.buckets.set bid _)[c]?.getD _ = _
    rw [List.getElem?_set, if_neg (fun hcc => hc2 hcc.symm), ← List.getD_eq_getElem?_getD]
  have hWbkt : ∀ i, i < u.dir.length →
      w.bucketAt i = if i % 2 ^ d = first then (⟨[], d + 1⟩ : BK) else u.bucketAt i := by
    intro i hi
    show w.buckets.getD (w.bidAt i) _ = _
    rw [hWbid i hi]
    by_cases hc1 : i % 2 ^ d = first
    · rw [if_pos hc1]
      by_cases hc2 : i % 2 ^ (d + 1) = first
      · rw [if_neg (fun hh => hh.2 hc2)]
        have he : u.bidAt i = bid := (ubid_iff i hi).2 hc1
        rw [he]
        exact hWb_bid
      · rw [if_pos ⟨hc1, hc2⟩]
        exact hWb_nb
    · rw [if_neg hc1, if_neg (fun hh => hc1 hh.1)]
      exact hWb_other _ (hwf.bidLt i hi) (fun hcc => hc1 ((ubid_iff i hi).1 hcc))
  have hbidnb : bid ≠ nb := by
    rw [hnb]
    omega
  have hWbid_iff : ∀ i, i < u.dir.length → (w.bidAt i = bid ↔ i % 2 ^ (d + 1) = first) := by
    intro i hi
    rw [hWbid i hi]
    by_cases hc : i % 2 ^ d = first ∧ i % 2 ^ (d + 1) ≠ first
    · rw [if_pos hc]
      exact iff_of_false (fun hcc => hbidnb hcc.symm) hc.2
    · rw [if_neg hc]
      rw [ubid_iff i hi]
      constructor
      · intro h1
        by_cases h2 : i % 2 ^ (d + 1) = first
        · exact h2
        · exact absurd ⟨h1, h2⟩ hc
      · exact hred i
  have hWnb_iff : ∀ i, i < u.dir.length →
      (w.bidAt i = nb ↔ (i % 2 ^ d = first ∧ i % 2 ^ (d + 1) ≠ first)) := by
    intro i hi
    rw [hWbid i hi]
    by_cases hc : i % 2 ^ d = first ∧ i % 2 ^ (d + 1) ≠ first
    · rw [if_pos hc]
      exact iff_of_true rfl hc
    · rw [if_neg hc]
      refine iff_of_false ?_ hc
      intro hcc
      have hlt3 := hwf.bidLt i hi
      rw [hcc, hnb] at hlt3
      omega
  have hWdepth : ∀ i, i < u.dir.length → (w.bucketAt i).depth =
      if i % 2 ^ d = first then d + 1 else (u.bucketAt i).depth := by
    intro i hi
    rw [hWbkt i hi]
    by_cases hc : i % 2 ^ d = first
    · rw [if_pos hc, if_pos hc]
    · rw [if_neg hc, if_neg hc]
  refine ⟨hWdirlen, hWg, hWbs, hWblen, hWnum, hWbkt, hWbid_iff, hWnb_iff, hWb_bid, hWb_nb,
    hbidnb, ⟨?_, ?_, ?_, ?_, ?_, ?_, ?_⟩⟩
  · rw [hWdirlen, hWg]
    exact hL
  · intro i hi
    rw [hWdirlen] at hi
    rw [hWbid i hi, hWblen]
    by_cases hc : i % 2 ^ d = first ∧ i % 2 ^ (d + 1) ≠ first
    · rw [if_pos hc, hnb]
      omega
    · rw [if_neg hc]
      have := hwf.bidLt i hi
      omega
  · intro i hi
    rw [hWdirlen] at hi
    rw [hWdepth i hi, hWg]
    by_cases hc : i % 2 ^ d = first
    · rw [if_pos hc]
      omega
    · rw [if_neg hc]
      exact hwf.depthLe i hi
  · intro i hi j hj
    rw [hWdirlen] at hi hj
    rw [hWdepth i hi]
    by_cases hi1 : i % 2 ^ d = first
    · rw [if_pos hi1, hWbid i hi, hWbid j hj]
      by_cases hi2 : i % 2 ^ (d + 1) = first
      · rw [if_neg (fun hh => hh.2 hi2), (ubid_iff i hi).2 hi1]
        by_cases hj1 : j % 2 ^ d = first
        · by_cases hj2 : j % 2 ^ (d + 1) = first
          · rw [if_neg (fun hh => hh.2 hj2), (ubid_iff j hj).2 hj1, hi2, hj2]
            exact iff_of_true rfl rfl
          · rw [if_pos ⟨hj1, hj2⟩]
            refine iff_of_false hbidnb ?_
            rw [hi2, hup j hj1 hj2]
            omega
        · rw [if_neg (fun hh => hj1 hh.1)]
          have hjnbid : u.bidAt j ≠ bid := fun hc => hj1 ((ubid_iff j hj).1 hc)
          have hmodc : ¬ i % 2 ^ (d + 1) = j % 2 ^ (d + 1) := by
            intro hcc
            apply hj1
            have h3 : j % 2 ^ (d + 1) % 2 ^ d = i % 2 ^ (d + 1) % 2 ^ d := by rw [hcc]
            rw [mod_pow_mod j (Nat.le_succ d), mod_pow_mod i (Nat.le_succ d), hi1] at h3
            exact h3
          exact iff_of_false (fun hc => hjnbid hc.symm) hmodc
      · rw [if_pos ⟨hi1, hi2⟩]
        by_cases hj1 : j % 2 ^ d = first
        · by_cases hj2 : j % 2 ^ (d + 1) = first
          · rw [if_neg (fun hh => hh.2 hj2), (ubid_iff j hj).2 hj1]
            refine iff_of_false (fun hcc => hbidnb hcc.symm) ?_
            rw [hj2, hup i hi1 hi2]
            omega
          · rw [if_pos ⟨hj1, hj2⟩]
            rw [hup i hi1 hi2, hup j hj1 hj2]
            exact iff_of_true rfl rfl
        · rw [if_neg (fun hh => hj1 hh.1)]
          have hjnnb : u.bidAt j ≠ nb := by
            have := hwf.bidLt j hj
            rw [hnb]
            omega
          have hmodc : ¬ i % 2 ^ (d + 1) = j % 2 ^ (d + 1) := by
            intro hcc
            apply hj1
            have h3 : j % 2 ^ (d + 1) % 2 ^ d = i % 2 ^ (d + 1) % 2 ^ d := by rw [hcc]
            rw [mod_pow_mod j (Nat.le_succ d), mod_pow_mod i (Nat.le_succ d), hi1] at h3
            exact h3
          exact iff_of_false (fun hc => hjnnb hc.symm) hmodc
    · rw [if_neg hi1, hWbid i hi, hWbid j hj, if_neg (fun hh => hi1 hh.1)]
      have hinbid : u.bidAt i ≠ bid := fun hc => hi1 ((ubid_iff i hi).1 hc)
      have hinnb : u.bidAt i ≠ nb := by
        have := hwf.bidLt i hi
        rw [hnb]
        omega
      by_cases hj1 : j % 2 ^ d = first
      · have hmodc : ¬ i % 2 ^ (u.bucketAt i).depth = j % 2 ^ (u.bucketAt i).depth := by
          intro hcc
          have hs := (hwf.share i hi j hj).2 hcc
          have he : u.bidAt j = bid := (ubid_iff j hj).2 hj1
          exact hinbid (hs.trans he)
        by_cases hj2 : j % 2 ^ (d + 1) = first
        · rw [if_neg (fun hh => hh.2 hj2)]
          refine iff_of_false ?_ hmodc
          rw [(ubid_iff j hj).2 hj1]
          exact hinbid
        · rw [if_pos ⟨hj1, hj2⟩]
          exact iff_of_false hinnb hmodc
      · rw [if_neg (fun hh => hj1 hh.1)]
        exact hwf.share i hi j hj
  · intro i hi kv hkv
    rw [hWdirlen] at hi
    rw [hWbkt i hi] at hkv
    rw [hWdepth i hi]
    by_cases hc : i % 2 ^ d = first
    · rw [if_pos hc] at hkv
      exact absurd hkv (List.not_mem_nil kv)
    · rw [if_neg hc] at hkv
      rw [if_neg hc]
      exact hwf.inClass i hi kv hkv
  · intro i hi
    rw [hWdirlen] at hi
    rw [hWbkt i hi]
    by_cases hc : i % 2 ^ d = first
    · rw [if_pos hc]
      exact List.nodup_nil
    · rw [if_neg hc]
      exact hwf.nodup i hi
  · intro i hi
    rw [hWdirlen] at hi
    rw [hWbkt i hi, hWbs]
    by_cases hc : i % 2 ^ d = first
    · rw [if_pos hc]
      exact Nat.zero_le _
    · rw [if_neg hc]
      exact hwf.bounded i hi

theorem setBucket_comm (t : HT) (a b : Nat) (x y : BK) (hab : a ≠ b) :
    (t.setBucket a x).setBucket b y = (t.setBucket b y).setBucket a x := by
  unfold HT.setBucket
  show ({ t with buckets := (t.buckets.set a x).set b y } : HT) = _
  rw [List.set_comm _ _ _ hab]

/-- One redistribution insert into the two post-split buckets: the entry is
appended to the old bucket when its hash agrees with `first` on `d+1` low
bits, else to the fresh bucket. -/
theorem reinsert_one_step (h : Nat → Nat) (w : HT) (bid nb d first : Nat)
    (A B : List (Nat × Nat)) (kk vv : Nat)
    (hbidnb : bid ≠ nb)
    (hbidlt : bid < w.buckets.length) (hnblt : nb < w.buckets.length)
    (hbid_iff : ∀ i, i < w.dir.length → (w.bidAt i = bid ↔ i % 2 ^ (d + 1) = first))
    (hnb_iff : ∀ i, i < w.dir.length →
      (w.bidAt i = nb ↔ (i % 2 ^ d = first ∧ i % 2 ^ (d + 1) ≠ first)))
    (hdirlen : w.dir.length = 2 ^ w.g)
    (hdg : d < w.g)
    (hkkd : h kk % 2 ^ d = first)
    (hAlen : A.length < w.bsize) (hBlen : B.length < w.bsize)
    (hkkA : kk ∉ A.map Prod.fst) (hkkB : kk ∉ B.map Prod.fst) :
    HT.reinsertOne h ((w.setBucket bid ⟨A, d + 1⟩).setBucket nb ⟨B, d + 1⟩) (kk, vv) =
      if h kk % 2 ^ (d + 1) = first
      then (w.setBucket bid ⟨A ++ [(kk, vv)], d + 1⟩).setBucket nb ⟨B, d + 1⟩
      else (w.setBucket bid ⟨A, d + 1⟩).setBucket nb ⟨B ++ [(kk, vv)], d + 1⟩ := by
  have hidx : h kk % 2 ^ w.g < w.dir.length := by
    rw [hdirlen]
    exact Nat.mod_lt _ (Nat.two_pow_pos _)
  have hd1g : d + 1 ≤ w.g := by omega
  by_cases hP : h kk % 2 ^ (d + 1) = first
  · rw [if_pos hP]
    have htgt : ((w.setBucket bid ⟨A, d + 1⟩).setBucket nb ⟨B, d + 1⟩).bidAt
        (((w.setBucket bid ⟨A, d + 1⟩).setBucket nb ⟨B, d + 1⟩).indexOf h (kk, vv).1)
        = bid := by
      show w.bidAt (h kk % 2 ^ w.g) = bid
      apply (hbid_iff _ hidx).2
      rw [mod_pow_mod (h kk) hd1g]
      exact hP
    have hbk : ((w.setBucket bid ⟨A, d + 1⟩).setBucket nb ⟨B, d + 1⟩).bucketAt
        (((w.setBucket bid ⟨A, d + 1⟩).setBucket nb ⟨B, d + 1⟩).indexOf h (kk, vv).1)
        = ⟨A, d + 1⟩ := by
      show ((w.buckets.set bid ⟨A, d + 1⟩).set nb ⟨B, d + 1⟩).getD
        (((w.setBucket bid ⟨A, d + 1⟩).setBucket nb ⟨B, d + 1⟩).bidAt
          (((w.setBucket bid ⟨A, d + 1⟩).setBucket nb ⟨B, d + 1⟩).indexOf h (kk, vv).1))
        ⟨[], 0⟩ = ⟨A, d + 1⟩
      rw [htgt, bkGetD_set_ne _ nb bid _ (fun hc => hbidnb hc.symm)]
      exact bkGetD_set_self _ bid _ hbidlt
    have hov : bkOverwrite A kk vv = none := (bkOverwrite_none A kk vv).2 hkkA
    have hscr : bkInsert ((w.setBucket bid ⟨A, d + 1⟩).setBucket nb ⟨B, d + 1⟩).bsize
        (((w.setBucket bid ⟨A, d + 1⟩).setBucket nb ⟨B, d + 1⟩).bucketAt
          (((w.setBucket bid ⟨A, d + 1⟩).setBucket nb ⟨B, d + 1⟩).indexOf h (kk, vv).1)).items
        (kk, vv).1 (kk, vv).2 = some (A ++ [(kk, vv)]) := by
      rw [hbk]
      show bkInsert w.bsize A kk vv = _
      unfold bkInsert
      rw [if_neg (by omega), hov]
    unfold HT.reinsertOne
    rw [hscr, htgt, hbk]
    show ((w.setBucket bid ⟨A, d + 1⟩).setBucket nb ⟨B, d + 1⟩).setBucket bid
        ⟨A ++ [(kk, vv)], d + 1⟩ = _
    rw [setBucket_comm (w.setBucket bid ⟨A, d + 1⟩) nb bid _ _ (fun hc => hbidnb hc.symm)]
    rw [setBucket_setBucket]
  · rw [if_neg hP]
    have htgt : ((w.setBucket bid ⟨A, d + 1⟩).setBucket nb ⟨B, d + 1⟩).bidAt
        (((w.setBucket bid ⟨A, d + 1⟩).setBucket nb ⟨B, d + 1⟩).indexOf h (kk, vv).1)
        = nb := by
      show w.bidAt (h kk % 2 ^ w.g) = nb
      apply (hnb_iff _ hidx).2
      rw [mod_pow_mod (h kk) hd1g, mod_pow_mod (h kk) (by omega : d ≤ w.g)]
      exact ⟨hkkd, hP⟩
    have hbk : ((w.setBucket bid ⟨A, d + 1⟩).setBucket nb ⟨B, d + 1⟩).bucketAt
        (((w.setBucket bid ⟨A, d + 1⟩).setBucket nb ⟨B, d + 1⟩).indexOf h (kk, vv).1)
        = ⟨B, d + 1⟩ := by
      show ((w.buckets.set bid ⟨A, d + 1⟩).set nb ⟨B, d + 1⟩).getD
        (((w.setBucket bid ⟨A, d + 1⟩).setBucket nb ⟨B, d + 1⟩).bidAt
          (((w.setBucket bid ⟨A, d + 1⟩).setBucket nb ⟨B, d + 1⟩).indexOf h (kk, vv).1))
        ⟨[], 0⟩ = ⟨B, d + 1⟩
      rw [htgt]
      exact bkGetD_set_self _ nb _ (by rw [List.length_set]; exact hnblt)
    have hov : bkOverwrite B kk vv = none := (bkOverwrite_none B kk vv).2 hkkB
    have hscr : bkInsert ((w.setBucket bid ⟨A, d + 1⟩).setBucket nb ⟨B, d + 1⟩).bsize
        (((w.setBucket bid ⟨A, d + 1⟩).setBucket nb ⟨B, d + 1⟩).bucketAt
          (((w.setBucket bid ⟨A, d + 1⟩).setBucket nb ⟨B, d + 1⟩).indexOf h (kk, vv).1)).items
        (kk, vv).1 (kk, vv).2 = some (B ++ [(kk, vv)]) := by
      rw [hbk]
      show bkInsert w.bsize B kk vv = _
      unfold bkInsert
      rw [if_neg (by omega), hov]
    unfold HT.reinsertOne
    rw [hscr, htgt, hbk]
    show ((w.setBucket bid ⟨A, d + 1⟩).setBucket nb ⟨B, d + 1⟩).setBucket nb
        ⟨B ++ [(kk, vv)], d + 1⟩ = _
    rw [setBucket_setBucket]

/-- The redistribution loop after a split: the saved items, all hashing into
the split class (low `d` bits equal `first`), distribute between the old
bucket `bid` (entries whose hash agrees with `first` on `d+1` low bits) and
the fresh bucket `nb` (the rest), in order; every insert succeeds because at
most `bucket_size_` distinct-keyed items are redistributed into two empty
buckets. -/
theorem reinsert_spec (h : Nat → Nat) (w : HT) (bid nb d first : Nat)
    (saved : List (Nat × Nat))
    (hbidnb : bid ≠ nb)
    (hbidlt : bid < w.buckets.length) (hnblt : nb < w.buckets.length)
    (hbid_iff : ∀ i, i < w.dir.length → (w.bidAt i = bid ↔ i % 2 ^ (d + 1) = first))
    (hnb_iff : ∀ i, i < w.dir.length →
      (w.bidAt i = nb ↔ (i % 2 ^ d = first ∧ i % 2 ^ (d + 1) ≠ first)))
    (hdirlen : w.dir.length = 2 ^ w.g)
    (hdg : d < w.g)
    (hcls : ∀ kv, kv ∈ saved → h kv.1 % 2 ^ d = first)
    (hnd : (saved.map Prod.fst).Nodup)
    (hlen : saved.length ≤ w.bsize)
    (hbidbk : w.buckets.getD bid ⟨[], 0⟩ = ⟨[], d + 1⟩)
    (hnbbk : w.buckets.getD nb ⟨[], 0⟩ = ⟨[], d + 1⟩) :
    HT.reinsert h w saved =
      (w.setBucket bid
        ⟨saved.filter (fun kv => h kv.1 % 2 ^ (d + 1) == first), d + 1⟩).setBucket
        nb ⟨saved.filter (fun kv => ! (h kv.1 % 2 ^ (d + 1) == first)), d + 1⟩ := by
  suffices haux : ∀ rest done, saved = done ++ rest →
      HT.reinsert h
        ((w.setBucket bid
          ⟨done.filter (fun kv => h kv.1 % 2 ^ (d + 1) == first), d + 1⟩).setBucket
          nb ⟨done.filter (fun kv => ! (h kv.1 % 2 ^ (d + 1) == first)), d + 1⟩) rest =
        (w.setBucket bid
          ⟨(done ++ rest).filter (fun kv => h kv.1 % 2 ^ (d + 1) == first), d + 1⟩).setBucket
          nb ⟨(done ++ rest).filter (fun kv => ! (h kv.1 % 2 ^ (d + 1) == first)), d + 1⟩ by
    have h0 := haux saved [] rfl
    simp only [List.filter_nil, List.nil_append] at h0
    have hbid0 : w.setBucket bid (⟨[], d + 1⟩ : BK) = w := by
      show ({ w with buckets := w.buckets.set bid ⟨[], d + 1⟩ } : HT) = w
      rw [bkSet_of_getD w.buckets bid ⟨[], d + 1⟩ hbidbk]
    have hnb0 : w.setBucket nb (⟨[], d + 1⟩ : BK) = w := by
      show ({ w with buckets := w.buckets.set nb ⟨[], d + 1⟩ } : HT) = w
      rw [bkSet_of_getD w.buckets nb ⟨[], d + 1⟩ hnbbk]
    rw [hbid0, hnb0] at h0
    exact h0
  intro rest
  induction rest with
  | nil =>
    intro done hsaved
    rw [List.append_nil]
    rfl
  | cons kv rest2 ih =>
    intro done hsaved
    rcases kv with ⟨kk, vv⟩
    have hkvmem : (kk, vv) ∈ saved := by
      rw [hsaved]
      exact List.mem_append_right _ (List.mem_cons_self _ _)
    have hkkd : h kk % 2 ^ d = first := hcls _ hkvmem
    have hkknotdone : kk ∉ done.map Prod.fst := by
      have hmapsplit : saved.map Prod.fst = done.map Prod.fst ++ kk :: rest2.map Prod.fst := by
        rw [hsaved]
        simp
      rw [hmapsplit] at hnd
      rcases List.nodup_append.1 hnd with ⟨-, -, hdisj⟩
      intro hc
      exact hdisj hc (List.mem_cons_self _ _)
    have hdonelt : done.length < w.bsize := by
      have hslen : saved.length = done.length + (rest2.length + 1) := by
        rw [hsaved]
        simp [List.length_append]
      omega
    have hlenA := List.length_filter_le (fun kv => h kv.1 % 2 ^ (d + 1) == first) done
    have hlenB := List.length_filter_le (fun kv => ! (h kv.1 % 2 ^ (d + 1) == first)) done
    have hkkA : kk ∉ (done.filter (fun kv => h kv.1 % 2 ^ (d + 1) == first)).map Prod.fst := by
      intro hc
      apply hkknotdone
      rcases List.mem_map.1 hc with ⟨kv2, hkv2, hfst⟩
      exact List.mem_map.2 ⟨kv2, (List.mem_filter.1 hkv2).1, hfst⟩
    have hkkB : kk ∉ (done.filter
        (fun kv => ! (h kv.1 % 2 ^ (d + 1) == first))).map Prod.fst := by
      intro hc
      apply hkknotdone
      rcases List.mem_map.1 hc with ⟨kv2, hkv2, hfst⟩
      exact List.mem_map.2 ⟨kv2, (List.mem_filter.1 hkv2).1, hfst⟩
    have hassoc : done ++ (kk, vv) :: rest2 = (done ++ [(kk, vv)]) ++ rest2 := by
      rw [List.append_assoc]
      rfl
    rw [hassoc]
    have hstep := reinsert_one_step h w bid nb d first
      (done.filter (fun kv => h kv.1 % 2 ^ (d + 1) == first))
      (done.filter (fun kv => ! (h kv.1 % 2 ^ (d + 1) == first))) kk vv
      hbidnb hbidlt hnblt hbid_iff hnb_iff hdirlen hdg hkkd
      (by omega) (by omega) hkkA hkkB
    unfold HT.reinsert
    rw [List.foldl_cons, hstep]
    by_cases hP : h kk % 2 ^ (d + 1) = first
    · rw [if_pos hP]
      have hbeq : (h kk % 2 ^ (d + 1) == first) = true := by simp [hP]
      have hfilA : (done ++ [(kk, vv)]).filter
          (fun kv => h kv.1 % 2 ^ (d + 1) == first) =
          done.filter (fun kv => h kv.1 % 2 ^ (d + 1) == first) ++ [(kk, vv)] := by
        rw [List.filter_append]
        simp [List.filter, hbeq]
      have hfilB : (done ++ [(kk, vv)]).filter
          (fun kv => ! (h kv.1 % 2 ^ (d + 1) == first)) =
          done.filter (fun kv => ! (h kv.1 % 2 ^ (d + 1) == first)) := by
        rw [List.filter_append]
        simp [List.filter, hbeq]
      have hihres := ih (done ++ [(kk, vv)]) (by rw [hsaved, hassoc])
      rw [hfilA, hfilB] at hihres
      unfold HT.reinsert at hihres
      exact hihres
    · rw [if_neg hP]
      have hbeq : (h kk % 2 ^ (d + 1) == first) = false := by simp [hP]
      have hfilA : (done ++ [(kk, vv)]).filter
          (fun kv => h kv.1 % 2 ^ (d + 1) == first) =
          done.filter (fun kv => h kv.1 % 2 ^ (d + 1) == first) := by
        rw [List.filter_append]
        simp [List.filter, hbeq]
      have hfilB : (done ++ [(kk, vv)]).filter
          (fun kv => ! (h kv.1 % 2 ^ (d + 1) == first)) =
          done.filter (fun kv => ! (h kv.1 % 2 ^ (d + 1) == first)) ++ [(kk, vv)] := by
        rw [List.filter_append]
        simp [List.filter, hbeq]
      have hihres := ih (done ++ [(kk, vv)]) (by rw [hsaved, hassoc])
      rw [hfilA, hfilB] at hihres
      unfold HT.reinsert at hihres
      exact hihres

/-- Normal form of `splitStep`: clearing the bucket before the depth bump is
subsumed by writing `⟨[], d+1⟩` once, and the doubling commutes with the
bucket write, so the whole phase is a doubling (when the local depth equals
the global depth), one bucket write, a repoint, and the redistribution. -/
theorem splitStep_eq (h : Nat → Nat) (t : HT) (k : Nat)
    (hbid : t.bidAt (t.indexOf h k) < t.buckets.length) :
    t.splitStep h k =
      HT.reinsert h
        (((if (t.bucketAt (t.indexOf h k)).depth = t.g then t.double else t).setBucket
            (t.bidAt (t.indexOf h k))
            ⟨[], (t.bucketAt (t.indexOf h k)).depth + 1⟩).repoint
          (h k % 2 ^ (t.bucketAt (t.indexOf h k)).depth)
          (t.bucketAt (t.indexOf h k)).depth)
        (t.bucketAt (t.indexOf h k)).items := by
  unfold HT.splitStep
  simp only []
  have hA : (t.setBucket (t.bidAt (t.indexOf h k))
      { t.buckets.getD (t.bidAt (t.indexOf h k)) ⟨[], 0⟩ with items := [] }).bucketAt
      ((t.setBucket (t.bidAt (t.indexOf h k))
        { t.buckets.getD (t.bidAt (t.indexOf h k)) ⟨[], 0⟩ with items := [] }).indexOf h k)
      = { t.buckets.getD (t.bidAt (t.indexOf h k)) ⟨[], 0⟩ with items := [] } := by
    show (t.buckets.set (t.bidAt (t.indexOf h k))
        { t.buckets.getD (t.bidAt (t.indexOf h k)) ⟨[], 0⟩ with items := [] }).getD
        (t.bidAt (t.indexOf h k)) ⟨[], 0⟩
      = { t.buckets.getD (t.bidAt (t.indexOf h k)) ⟨[], 0⟩ with items := [] }
    exact bkGetD_set_self _ _ _ hbid
  rw [hA]
  by_cases hcond : (t.bucketAt (t.indexOf h k)).depth = t.g
  · rw [if_pos hcond]
    rw [if_pos (show ({ t.buckets.getD (t.bidAt (t.indexOf h k)) ⟨[], 0⟩ with
        items := [] } : BK).depth = (t.setBucket (t.bidAt (t.indexOf h k))
        { t.buckets.getD (t.bidAt (t.indexOf h k)) ⟨[], 0⟩ with items := [] }).g
      from hcond)]
    have hd : ((t.setBucket (t.bidAt (t.indexOf h k))
        { t.buckets.getD (t.bidAt (t.indexOf h k)) ⟨[], 0⟩ with
          items := [] }).double.buckets.getD (t.bidAt (t.indexOf h k)) ⟨[], 0⟩).depth
        = (t.bucketAt (t.indexOf h k)).depth := by
      show ((t.buckets.set (t.bidAt (t.indexOf h k))
          { t.buckets.getD (t.bidAt (t.indexOf h k)) ⟨[], 0⟩ with items := [] }).getD
          (t.bidAt (t.indexOf h k)) ⟨[], 0⟩).depth = (t.bucketAt (t.indexOf h k)).depth
      rw [bkGetD_set_self _ _ _ hbid]
      rfl
    rw [hd]
    rw [double_setBucket, setBucket_setBucket]
    rfl
  · rw [if_neg hcond]
    rw [if_neg (show ¬ ({ t.buckets.getD (t.bidAt (t.indexOf h k)) ⟨[], 0⟩ with
        items := [] } : BK).depth = (t.setBucket (t.bidAt (t.indexOf h k))
        { t.buckets.getD (t.bidAt (t.indexOf h k)) ⟨[], 0⟩ with items := [] }).g
      from hcond)]
    have hd : ((t.setBucket (t.bidAt (t.indexOf h k))
        { t.buckets.getD (t.bidAt (t.indexOf h k)) ⟨[], 0⟩ with
          items := [] }).buckets.getD (t.bidAt (t.indexOf h k)) ⟨[], 0⟩).depth
        = (t.bucketAt (t.indexOf h k)).depth := by
      show ((t.buckets.set (t.bidAt (t.indexOf h k))
          { t.buckets.getD (t.bidAt (t.indexOf h k)) ⟨[], 0⟩ with items := [] }).getD
          (t.bidAt (t.indexOf h k)) ⟨[], 0⟩).depth = (t.bucketAt (t.indexOf h k)).depth
      rw [bkGetD_set_self _ _ _ hbid]
      rfl
    rw [hd]
    rw [setBucket_setBucket]
    rfl

/-- The split phase after the optional doubling (`u` is the doubled-or-not
state): clearing, bumping, repointing and redistributing preserves
well-formedness and every lookup. -/
theorem split_core_spec (h : Nat → Nat) (t u : HT) (k : Nat)
    (hwf : t.wf h) (hwfu : u.wf h)
    (hfindu : ∀ key, u.find h key = t.find h key)
    (hbuckets : u.buckets = t.buckets)
    (hbid_u : u.bidAt (u.indexOf h k) = t.bidAt (t.indexOf h k))
    (hbkt_u : u.bucketAt (u.indexOf h k) = t.bucketAt (t.indexOf h k))
    (hdlt : (t.bucketAt (t.indexOf h k)).depth < u.g)
    (hbsz : u.bsize = t.bsize) :
    (HT.reinsert h
      ((u.setBucket (t.bidAt (t.indexOf h k))
        ⟨[], (t.bucketAt (t.indexOf h k)).depth + 1⟩).repoint
        (h k % 2 ^ (t.bucketAt (t.indexOf h k)).depth)
        (t.bucketAt (t.indexOf h k)).depth)
      (t.bucketAt (t.indexOf h k)).items).wf h ∧
    (∀ key, (HT.reinsert h
      ((u.setBucket (t.bidAt (t.indexOf h k))
        ⟨[], (t.bucketAt (t.indexOf h k)).depth + 1⟩).repoint
        (h k % 2 ^ (t.bucketAt (t.indexOf h k)).depth)
        (t.bucketAt (t.indexOf h k)).depth)
      (t.bucketAt (t.indexOf h k)).items).find h key = t.find h key) := by
  have hi0 : t.indexOf h k < t.dir.length := wf_indexLt hwf k
  have hi0u : u.indexOf h k < u.dir.length := wf_indexLt hwfu k
  have hbidlt : t.bidAt (t.indexOf h k) < t.buckets.length := hwf.bidLt _ hi0
  have hdep : (t.bucketAt (t.indexOf h k)).depth ≤ t.g := hwf.depthLe _ hi0
  have h2d := Nat.two_pow_pos (t.bucketAt (t.indexOf h k)).depth
  have hfirst_eq : h k % 2 ^ (t.bucketAt (t.indexOf h k)).depth
      = u.indexOf h k % 2 ^ (t.bucketAt (t.indexOf h k)).depth := by
    show _ = h k % 2 ^ u.g % 2 ^ _
    rw [mod_pow_mod (h k) (by omega : (t.bucketAt (t.indexOf h k)).depth ≤ u.g)]
  obtain ⟨hWdirlen, hWg, hWbs, hWblen, hWnum, hWbkt, hWbid_iff, hWnb_iff, hWb_bid, hWb_nb,
      hbidnb, hwfw⟩ :=
    split_mid_spec h u hwfu (u.indexOf h k) (t.bidAt (t.indexOf h k))
      (t.bucketAt (t.indexOf h k)).depth
      (h k % 2 ^ (t.bucketAt (t.indexOf h k)).depth) u.buckets.length
      ((u.setBucket (t.bidAt (t.indexOf h k))
        ⟨[], (t.bucketAt (t.indexOf h k)).depth + 1⟩).repoint
        (h k % 2 ^ (t.bucketAt (t.indexOf h k)).depth)
        (t.bucketAt (t.indexOf h k)).depth)
      hi0u hbid_u.symm (by rw [hbkt_u]) hdlt hfirst_eq (by rw [hbuckets]) rfl
  have hflt : h k % 2 ^ (t.bucketAt (t.indexOf h k)).depth
      < 2 ^ (t.bucketAt (t.indexOf h k)).depth := Nat.mod_lt _ h2d
  have hfirstlt : h k % 2 ^ (t.bucketAt (t.indexOf h k)).depth < u.dir.length := by
    rw [hwfu.dirLen]
    have : (2 : Nat) ^ (t.bucketAt (t.indexOf h k)).depth ≤ 2 ^ u.g :=
      Nat.pow_le_pow_right (by omega) (by omega)
    omega
  have histarlt : h k % 2 ^ (t.bucketAt (t.indexOf h k)).depth
      + 2 ^ (t.bucketAt (t.indexOf h k)).depth < u.dir.length := by
    rw [hwfu.dirLen]
    have h1 : h k % 2 ^ (t.bucketAt (t.indexOf h k)).depth
        + 2 ^ (t.bucketAt (t.indexOf h k)).depth
        < 2 ^ ((t.bucketAt (t.indexOf h k)).depth + 1) := by
      rw [pow_succ]
      omega
    have h2 : (2 : Nat) ^ ((t.bucketAt (t.indexOf h k)).depth + 1) ≤ 2 ^ u.g :=
      Nat.pow_le_pow_right (by omega) (by omega)
    omega
  have hcls : ∀ kv, kv ∈ (t.bucketAt (t.indexOf h k)).items →
      h kv.1 % 2 ^ (t.bucketAt (t.indexOf h k)).depth
        = h k % 2 ^ (t.bucketAt (t.indexOf h k)).depth := by
    intro kv hkv
    have := hwf.inClass _ hi0 kv hkv
    rw [this]
    show h k % 2 ^ t.g % 2 ^ (t.bucketAt (t.indexOf h k)).depth
      = h k % 2 ^ (t.bucketAt (t.indexOf h k)).depth
    exact mod_pow_mod (h k) hdep
  have hrein := reinsert_spec h
    ((u.setBucket (t.bidAt (t.indexOf h k))
      ⟨[], (t.bucketAt (t.indexOf h k)).depth + 1⟩).repoint
      (h k % 2 ^ (t.bucketAt (t.indexOf h k)).depth)
      (t.bucketAt (t.indexOf h k)).depth)
    (t.bidAt (t.indexOf h k)) u.buckets.length
    (t.bucketAt (t.indexOf h k)).depth
    (h k % 2 ^ (t.bucketAt (t.indexOf h k)).depth)
    (t.bucketAt (t.indexOf h k)).items
    hbidnb
    (by rw [hWblen, hbuckets]; omega)
    (by rw [hWblen]; omega)
    (by rw [hWdirlen]; exact hWbid_iff)
    (by rw [hWdirlen]; exact hWnb_iff)
    hwfw.dirLen
    (by rw [hWg]; omega)
    hcls
    (hwf.nodup _ hi0)
    (by rw [hWbs, hbsz]; exact hwf.bounded _ hi0)
    hWb_bid
    hWb_nb
  rw [hrein]
  set d := (t.bucketAt (t.indexOf h k)).depth with hddef
  set first := h k % 2 ^ d with hfirstdef
  set bid := t.bidAt (t.indexOf h k) with hbiddef
  set nb := u.buckets.length with hnbdef
  set w := (u.setBucket bid (⟨[], d + 1⟩ : BK)).repoint first d with hwdef
  set A := (t.bucketAt (t.indexOf h k)).items.filter
    (fun kv => h kv.1 % 2 ^ (d + 1) == first) with hAdef
  set B := (t.bucketAt (t.indexOf h k)).items.filter
    (fun kv => ! (h kv.1 % 2 ^ (d + 1) == first)) with hBdef
  have hbidltn : bid < nb := by
    rw [hnbdef, hbuckets]
    exact hbidlt
  have hfmod : first % 2 ^ d = first := Nat.mod_eq_of_lt hflt
  have hfmod1 : first % 2 ^ (d + 1) = first := by
    apply Nat.mod_eq_of_lt
    rw [pow_succ]
    omega
  have histar1 : (first + 2 ^ d) % 2 ^ d = first := by
    rw [Nat.add_mod_right, hfmod]
  have histar2 : (first + 2 ^ d) % 2 ^ (d + 1) = first + 2 ^ d := by
    apply Nat.mod_eq_of_lt
    rw [pow_succ]
    omega
  have hup : ∀ x : Nat, x % 2 ^ d = first → x % 2 ^ (d + 1) ≠ first →
      x % 2 ^ (d + 1) = first + 2 ^ d := by
    intro x h1 h2
    rcases mod_two_pow_succ_cases x d with hc | hc
    · rw [h1] at hc
      exact absurd hc h2
    · rw [h1] at hc
      exact hc
  have hslot1 : w.bidAt first = bid := by
    apply (hWbid_iff first (by omega)).2
    exact hfmod1
  have hbkt1 : w.bucketAt first = ⟨[], d + 1⟩ := by
    rw [hWbkt first (by omega), if_pos hfmod]
  have hslot2 : w.bidAt (first + 2 ^ d) = nb := by
    apply (hWnb_iff (first + 2 ^ d) histarlt).2
    refine ⟨histar1, ?_⟩
    rw [histar2]
    omega
  have hbkt2 : w.bucketAt (first + 2 ^ d) = ⟨[], d + 1⟩ := by
    rw [hWbkt (first + 2 ^ d) histarlt, if_pos histar1]
  have hAcls : ∀ kv, kv ∈ A → h kv.1 % 2 ^ (d + 1) = first := by
    intro kv hkv
    have := (List.mem_filter.1 hkv).2
    simpa using this
  have hBcls : ∀ kv, kv ∈ B → h kv.1 % 2 ^ (d + 1) = first + 2 ^ d := by
    intro kv hkv
    rcases List.mem_filter.1 hkv with ⟨hmem, hpred⟩
    have hne : h kv.1 % 2 ^ (d + 1) ≠ first := by simpa using hpred
    exact hup _ (hcls kv hmem) hne
  have hAsub : A.Sublist (t.bucketAt (t.indexOf h k)).items := List.filter_sublist _
  have hBsub : B.Sublist (t.bucketAt (t.indexOf h k)).items := List.filter_sublist _
  have hAnd : (A.map Prod.fst).Nodup := (hAsub.map Prod.fst).nodup (hwf.nodup _ hi0)
  have hBnd : (B.map Prod.fst).Nodup := (hBsub.map Prod.fst).nodup (hwf.nodup _ hi0)
  have hAlen : A.length ≤ w.bsize := by
    rw [hWbs, hbsz]
    exact le_trans hAsub.length_le (hwf.bounded _ hi0)
  have hBlen : B.length ≤ w.bsize := by
    rw [hWbs, hbsz]
    exact le_trans hBsub.length_le (hwf.bounded _ hi0)
  have hfirstltw : first < w.dir.length := by
    rw [hWdirlen]
    omega
  have histarltw : first + 2 ^ d < w.dir.length := by
    rw [hWdirlen]
    exact histarlt
  -- well-formedness of the final state via two item updates
  obtain ⟨hwfS1, hS1bkt⟩ := update_items_wf h w first A hwfw hfirstltw
    (by
      intro kv hkv
      rw [hbkt1]
      show h kv.1 % 2 ^ (d + 1) = first % 2 ^ (d + 1)
      rw [hfmod1]
      exact hAcls kv hkv)
    hAnd hAlen
  rw [hslot1, hbkt1] at hwfS1 hS1bkt
  have hwfS1x : ((w.setBucket bid (⟨A, d + 1⟩ : BK)).wf h) := hwfS1
  have hS1len : (w.setBucket bid (⟨A, d + 1⟩ : BK)).buckets.length = w.buckets.length := by
    simp [HT.setBucket]
  obtain ⟨hwfS2, hS2bkt⟩ := update_items_wf h (w.setBucket bid (⟨A, d + 1⟩ : BK))
    (first + 2 ^ d) B hwfS1x
    (by
      show first + 2 ^ d < w.dir.length
      exact histarltw)
    (by
      intro kv hkv
      have hb : (w.setBucket bid (⟨A, d + 1⟩ : BK)).bucketAt (first + 2 ^ d)
          = ⟨[], d + 1⟩ := by
        rw [bucketAt_setBucket _ _ _ _ (by rw [hWblen]; omega)]
        rw [if_neg (by rw [hslot2]; exact fun hc => hbidnb hc.symm), hbkt2]
      rw [hb]
      show h kv.1 % 2 ^ (d + 1) = (first + 2 ^ d) % 2 ^ (d + 1)
      rw [histar2]
      exact hBcls kv hkv)
    hBnd
    (by
      show B.length ≤ w.bsize
      exact hBlen)
  have hnbslot : (w.setBucket bid (⟨A, d + 1⟩ : BK)).bidAt (first + 2 ^ d) = nb := hslot2
  have hnbbkt : (w.setBucket bid (⟨A, d + 1⟩ : BK)).bucketAt (first + 2 ^ d)
      = ⟨[], d + 1⟩ := by
    rw [bucketAt_setBucket _ _ _ _ (by rw [hWblen]; omega)]
    rw [if_neg (by rw [hslot2]; exact fun hc => hbidnb hc.symm), hbkt2]
  rw [hnbslot, hnbbkt] at hwfS2 hS2bkt
  have hwfS2x : (((w.setBucket bid (⟨A, d + 1⟩ : BK)).setBucket nb (⟨B, d + 1⟩ : BK)).wf h) :=
    hwfS2
  refine ⟨hwfS2x, ?_⟩
  -- lookup preservation
  intro key
  have hkeyidx : h key % 2 ^ u.g < w.dir.length := by
    rw [hWdirlen, hwfu.dirLen]
    exact Nat.mod_lt _ (Nat.two_pow_pos _)
  have hkeyidxu : h key % 2 ^ u.g < u.dir.length := by
    rw [hwfu.dirLen]
    exact Nat.mod_lt _ (Nat.two_pow_pos _)
  have hg2 : ((w.setBucket bid (⟨A, d + 1⟩ : BK)).setBucket nb (⟨B, d + 1⟩ : BK)).g = u.g := by
    show w.g = u.g
    exact hWg
  have hfindform : ((w.setBucket bid (⟨A, d + 1⟩ : BK)).setBucket nb (⟨B, d + 1⟩ : BK)).find
      h key = bkFind ((((w.setBucket bid (⟨A, d + 1⟩ : BK)).setBucket nb
        (⟨B, d + 1⟩ : BK))).bucketAt (h key % 2 ^ u.g)).items key := by
    simp only [HT.find, HT.indexOf, hg2]
  rw [hfindform]
  have houtbkt : (((w.setBucket bid (⟨A, d + 1⟩ : BK)).setBucket nb
      (⟨B, d + 1⟩ : BK))).bucketAt (h key % 2 ^ u.g)
      = if w.bidAt (h key % 2 ^ u.g) = nb then (⟨B, d + 1⟩ : BK)
        else if w.bidAt (h key % 2 ^ u.g) = bid then (⟨A, d + 1⟩ : BK)
        else w.bucketAt (h key % 2 ^ u.g) := by
    rw [bucketAt_setBucket _ _ _ _ (by rw [hS1len, hWblen]; omega)]
    rw [bucketAt_setBucket _ _ _ _ (by rw [hWblen]; omega)]
    rfl
  rw [houtbkt]
  -- reduce the target lookup through u
  rw [← hfindu key]
  have hufind : u.find h key = bkFind (u.bucketAt (h key % 2 ^ u.g)).items key := rfl
  rw [hufind]
  have hkmod : h key % 2 ^ u.g % 2 ^ d = h key % 2 ^ d :=
    mod_pow_mod (h key) (by omega)
  have hkmod1 : h key % 2 ^ u.g % 2 ^ (d + 1) = h key % 2 ^ (d + 1) :=
    mod_pow_mod (h key) (by omega)
  by_cases hkcl : h key % 2 ^ d = first
  · -- same split class: the original bucket held exactly `saved`
    have huslot : u.bidAt (h key % 2 ^ u.g) = bid := by
      have hs := hwfu.share (u.indexOf h k) hi0u (h key % 2 ^ u.g) hkeyidxu
      rw [(by rw [hbkt_u] : (u.bucketAt (u.indexOf h k)).depth = d)] at hs
      have := hs.2 (by rw [hkmod, hkcl, ← hfirst_eq])
      rw [← this, hbid_u]
    have hubkt : u.bucketAt (h key % 2 ^ u.g) = t.bucketAt (t.indexOf h k) := by
      show u.buckets.getD (u.bidAt (h key % 2 ^ u.g)) _ = _
      rw [huslot, ← hbid_u]
      exact hbkt_u
    rw [hubkt]
    by_cases hP : h key % 2 ^ (d + 1) = first
    · have hwbid : w.bidAt (h key % 2 ^ u.g) = bid := by
        apply (hWbid_iff _ hkeyidxu).2
        rw [hkmod1]
        exact hP
      rw [if_neg (by rw [hwbid]; exact hbidnb), if_pos hwbid]
      show bkFind A key = _
      rw [hAdef]
      apply bkFind_filter
      intro kv hkv hfst
      simp only [beq_iff_eq]
      rw [hfst, hP]
    · have hwbid : w.bidAt (h key % 2 ^ u.g) = nb := by
        apply (hWnb_iff _ hkeyidxu).2
        rw [hkmod1, hkmod]
        exact ⟨hkcl, hP⟩
      rw [if_pos hwbid]
      show bkFind B key = _
      rw [hBdef]
      apply bkFind_filter
      intro kv hkv hfst
      simp only [Bool.not_eq_eq_eq_not, Bool.not_true, beq_eq_false_iff_ne]
      rw [hfst]
      exact hP
  · -- untouched class: the bucket is exactly the one of `u`
    have hwnotbid : w.bidAt (h key % 2 ^ u.g) ≠ bid := by
      intro hc
      apply hkcl
      have := (hWbid_iff _ hkeyidxu).1 hc
      rw [hkmod1] at this
      rw [← hfmod]
      rw [← mod_pow_mod (h key) (Nat.le_succ d), this]
    have hwnotnb : w.bidAt (h key % 2 ^ u.g) ≠ nb := by
      intro hc
      apply hkcl
      have := (hWnb_iff _ hkeyidxu).1 hc
      rw [hkmod] at this
      exact this.1
    rw [if_neg hwnotnb, if_neg hwnotbid]
    have hwbkt : w.bucketAt (h key % 2 ^ u.g) = u.bucketAt (h key % 2 ^ u.g) := by
      rw [hWbkt _ hkeyidxu, if_neg (by rw [hkmod]; exact hkcl)]
    rw [hwbkt]

/-- One split step of `Insert` (optional doubling, directory repointing and
redistribution) preserves well-formedness and every lookup. -/
theorem splitStep_spec (h : Nat → Nat) (t : HT) (k : Nat) (hwf : t.wf h) :
    (t.splitStep h k).wf h ∧ (∀ key, (t.splitStep h k).find h key = t.find h key) := by
  have hi0 : t.indexOf h k < t.dir.length := wf_indexLt hwf k
  have hbidlt : t.bidAt (t.indexOf h k) < t.buckets.length := hwf.bidLt _ hi0
  have hdep : (t.bucketAt (t.indexOf h k)).depth ≤ t.g := hwf.depthLe _ hi0
  rw [splitStep_eq h t k hbidlt]
  by_cases hc : (t.bucketAt (t.indexOf h k)).depth = t.g
  · rw [if_pos hc]
    obtain ⟨hwfd, hfindd, hbktd, hbidd⟩ := double_wf h t hwf
    have hklt : t.double.indexOf h k < 2 ^ (t.g + 1) := Nat.mod_lt _ (Nat.two_pow_pos _)
    have hmodg : t.double.indexOf h k % 2 ^ t.g = t.indexOf h k := by
      show h k % 2 ^ (t.g + 1) % 2 ^ t.g = h k % 2 ^ t.g
      exact mod_pow_mod (h k) (Nat.le_succ t.g)
    have hbkt_u : t.double.bucketAt (t.double.indexOf h k) = t.bucketAt (t.indexOf h k) := by
      rw [hbktd _ hklt, hmodg]
    have hbid_u : t.double.bidAt (t.double.indexOf h k) = t.bidAt (t.indexOf h k) := by
      rw [hbidd _ hklt, hmodg]
    have hdlt : (t.bucketAt (t.indexOf h k)).depth < t.double.g := by
      show _ < t.g + 1
      omega
    exact split_core_spec h t t.double k hwf hwfd hfindd rfl hbid_u hbkt_u hdlt rfl
  · rw [if_neg hc]
    exact split_core_spec h t t k hwf hwf (fun _ => rfl) rfl rfl rfl
      (by omega) rfl

/-- `Insert` run with any amount of fuel, when it returns a state, preserves
well-formedness and updates exactly the inserted key. -/
theorem insert_spec (h : Nat → Nat) (fuel : Nat) :
    ∀ (t : HT) (k v : Nat) (t2 : HT), t.wf h → HT.insert h fuel t k v = some t2 →
      t2.wf h ∧ ∀ key, t2.find h key = if key = k then some v else t.find h key := by
  induction fuel with
  | zero =>
    intro t k v t2 hwf hins
    exact absurd hins (by simp [HT.insert])
  | succ n ih =>
    intro t k v t2 hwf hins
    unfold HT.insert at hins
    simp only [] at hins
    cases hbk : bkInsert t.bsize (t.buckets.getD (t.bidAt (t.indexOf h k)) ⟨[], 0⟩).items
        k v with
    | some items2 =>
      rw [hbk] at hins
      injection hins with hins
      subst hins
      exact insert_success_spec h t k v items2 hwf hbk
    | none =>
      rw [hbk] at hins
      obtain ⟨hwf3, hfind3⟩ := splitStep_spec h t k hwf
      obtain ⟨hwf2, hfind2⟩ := ih (t.splitStep h k) k v t2 hwf3 hins
      refine ⟨hwf2, fun key => ?_⟩
      rw [hfind2 key]
      by_cases hk : key = k
      · rw [if_pos hk, if_pos hk]
      · rw [if_neg hk, if_neg hk, hfind3 key]

/-- The empty table is well formed for every hash and bucket size. -/
theorem init_wf (h : Nat → Nat) (B : Nat) : (HT.init B).wf h := by
  have hbid : ∀ i : Nat, (HT.init B).bidAt i = 0 := by
    intro i
    cases i with
    | zero => rfl
    | succ n => rfl
  have hbkt : ∀ i : Nat, (HT.init B).bucketAt i = ⟨[], 0⟩ := by
    intro i
    show (HT.init B).buckets.getD ((HT.init B).bidAt i) _ = _
    rw [hbid i]
    rfl
  refine ⟨rfl, ?_, ?_, ?_, ?_, ?_, ?_⟩
  · intro i hi
    rw [hbid i]
    exact Nat.zero_lt_one
  · intro i hi
    rw [hbkt i]
    exact Nat.le_refl 0
  · intro i hi j hj
    have hi1 : i < 1 := hi
    have hj1 : j < 1 := hj
    have hi0 : i = 0 := Nat.lt_one_iff.1 hi1
    have hj0 : j = 0 := Nat.lt_one_iff.1 hj1
    subst hi0
    subst hj0
    simp
  · intro i hi kv hkv
    rw [hbkt i] at hkv
    cases hkv
  · intro i hi
    rw [hbkt i]
    exact List.nodup_nil
  · intro i hi
    rw [hbkt i]
    exact Nat.zero_le _

/-- Running a list of operations preserves well-formedness and refines the
reference map semantics. -/
theorem runOps_spec (h : Nat → Nat) (fuel : Nat) :
    ∀ (ops : List HOp) (t t2 : HT) (m : Nat → Option Nat), t.wf h →
      HT.runOps h fuel ops t = some t2 →
      (∀ key, t.find h key = m key) →
      t2.wf h ∧ ∀ key, t2.find h key = modelRun ops m key := by
  intro ops
  induction ops with
  | nil =>
    intro t t2 m hwf hrun hm
    have hrun2 : some t = some t2 := hrun
    injection hrun2 with hrun2
    subst hrun2
    exact ⟨hwf, hm⟩
  | cons op rest ih =>
    intro t t2 m hwf hrun hm
    cases op with
    | ins k v =>
      unfold HT.runOps at hrun
      cases hins : HT.insert h fuel t k v with
      | none =>
        rw [hins] at hrun
        exact absurd hrun (by simp)
      | some t3 =>
        rw [hins] at hrun
        obtain ⟨hwf3, hfind3⟩ := insert_spec h fuel t k v t3 hwf hins
        have hm3 : ∀ key, t3.find h key = if key = k then some v else m key := by
          intro key
          rw [hfind3 key]
          by_cases hk : key = k
          · rw [if_pos hk, if_pos hk]
          · rw [if_neg hk, if_neg hk, hm key]
        exact ih t3 t2 (fun x => if x = k then some v else m x) hwf3 hrun hm3
    | del k =>
      unfold HT.runOps at hrun
      obtain ⟨hwf3, hfind3⟩ := remove_spec h t k hwf
      have hm3 : ∀ key, (t.remove h k).find h key = if key = k then none else m key := by
        intro key
        rw [hfind3 key]
        by_cases hk : key = k
        · rw [if_pos hk, if_pos hk]
        · rw [if_neg hk, if_neg hk, hm key]
      exact ih (t.remove h k) t2 (fun x => if x = k then none else m x) hwf3 hrun hm3

/-- C6: GetValue/Insert/Remove on the extendible hash table behave like a
key-value map — after any sequence of inserts and removes that the fueled
embedding completes, every lookup returns exactly what the reference map
semantics returns, including across bucket splits and directory doublings. -/
theorem c6_hash_roundtrip (h : Nat → Nat) (B fuel : Nat) (ops : List HOp) (t : HT)
    (hrun : HT.runOps h fuel ops (HT.init B) = some t) :
    ∀ k, t.find h k = modelRun ops (fun _ => none) k :=
  (runOps_spec h fuel ops (HT.init B) t (fun _ => none) (init_wf h B) hrun
    (fun key => by
      show bkFind ((HT.init B).bucketAt (h key % 2 ^ 0)).items key = none
      rw [pow_zero, Nat.mod_one]
      rfl)).2

/-- Witness for C6 at a split-forcing run: bucket size 2, identity hash,
inserts of 0, 2, 0 (forcing two splits) and a delete of 2. -/
theorem c6_hash_roundtrip_witness :
    HT.find (fun x => x) c6state 0 = modelRun c6ops (fun _ => none) 0 :=
  c6_hash_roundtrip (fun x => x) 2 10 c6ops c6state (by rfl) 0

/-- C7 counterexample: the claim says inserting a key that already exists
only overwrites its value and leaves the bucket structure untouched.  In the
code `Bucket::Insert` checks fullness before presence, so inserting key 0 —
already present in the (full) bucket of `c7full` — triggers splitting: the
bucket count grows from 1 to 3 and the global depth from 0 to 2. -/
theorem c7_full_overwrite_splits :
    c7full.numBuckets = 1 ∧ c7full.g = 0 ∧
    bkFind (c7full.bucketAt (c7full.indexOf (fun x => x) 0)).items 0 = some 10 ∧
    c7full.bsize ≤ (c7full.bucketAt (c7full.indexOf (fun x => x) 0)).items.length ∧
    (HT.insert (fun x => x) 10 c7full 0 30).map HT.numBuckets = some 3 ∧
    (HT.insert (fun x => x) 10 c7full 0 30).map HT.g = some 2 := by
  refine ⟨rfl, rfl, rfl, by decide, rfl, rfl⟩

/-- C7 amended: when the key is already present and its bucket is not full,
`Insert` overwrites the value in place — no split happens, the bucket count,
global depth and directory are unchanged, and only that key's binding
changes.  (When the bucket is full, the code splits even for a present key;
see the counterexample.) -/
theorem c7_overwrite_in_place (h : Nat → Nat) (t : HT) (k v fuel : Nat)
    (hwf : t.wf h)
    (hmem : k ∈ (t.bucketAt (t.indexOf h k)).items.map Prod.fst)
    (hroom : (t.bucketAt (t.indexOf h k)).items.length < t.bsize) :
    ∃ t2, HT.insert h (fuel + 1) t k v = some t2 ∧
      t2.numBuckets = t.numBuckets ∧ t2.g = t.g ∧ t2.dir = t.dir ∧ t2.wf h ∧
      (∀ key, t2.find h key = if key = k then some v else t.find h key) := by
  have hov : bkOverwrite (t.bucketAt (t.indexOf h k)).items k v ≠ none := by
    intro hc
    rw [bkOverwrite_none] at hc
    exact hc hmem
  obtain ⟨l2, hov2⟩ := Option.ne_none_iff_exists'.1 hov
  have hbkins : bkInsert t.bsize
      (t.buckets.getD (t.bidAt (t.indexOf h k)) ⟨[], 0⟩).items k v = some l2 := by
    show bkInsert t.bsize (t.bucketAt (t.indexOf h k)).items k v = some l2
    unfold bkInsert
    rw [if_neg (by omega), hov2]
  obtain ⟨hwf2, hfind2⟩ := insert_success_spec h t k v l2 hwf hbkins
  refine ⟨t.setBucket (t.bidAt (t.indexOf h k))
      { t.bucketAt (t.indexOf h k) with items := l2 }, ?_, rfl, rfl, rfl, hwf2, hfind2⟩
  unfold HT.insert
  simp only []
  rw [hbkins]
  rfl

/-- Witness for C7's amended statement: bucket size 2, identity hash, state
holding only (0,10); re-inserting key 0 with value 99 overwrites in place. -/
theorem c7_overwrite_in_place_witness :
    ∃ t2, HT.insert (fun x => x) (9 + 1) c7slack 0 99 = some t2 ∧
      t2.numBuckets = c7slack.numBuckets ∧ t2.g = c7slack.g ∧
      t2.dir = c7slack.dir ∧ t2.wf (fun x => x) ∧
      (∀ key, t2.find (fun x => x) key
        = if key = 0 then some 99 else c7slack.find (fun x => x) key) :=
  c7_overwrite_in_place (fun x => x) c7slack 0 99 9
    ((insert_spec (fun x => x) 10 (HT.init 2) 0 10 c7slack
      (init_wf (fun x => x) 2) (by rfl)).1)
    (by decide) (by decide)

/-- C1: the claim says that after any sequence of inserts every inserted key
is found by `GetValue` with its last value.  Inserting 1..10 with max size 3
splits an internal node; the split copies the child pointers into the new
internal page but never updates the moved children's `parent_page_id`, and
the promoted key is routed through the stale parent, so keys 9 and 10 end up
reachable only through a pointer the search never follows: `GetValue 9`
returns false even though Insert 9 returned true (key 8 still works, showing
the run itself is healthy). -/
theorem c1_insert_then_getvalue_lost :
    c1run.isSome = true ∧
    ((c1run.bind (fun t => t.getValue 9 30)).map Prod.fst = some none) ∧
    ((c1run.bind (fun t => t.getValue 8 30)).map Prod.fst = some (some 108)) := by
  refine ⟨rfl, rfl, rfl⟩

/-- C2: the claim says removing the last key of a root leaf deletes the root
page and marks the tree empty.  In the code `Remove` never resets
`root_page_id_`, and the `DeletePage` call fails because the leaf fetched by
`FindLeafPage` is still pinned: afterwards `IsEmpty` is false, the root page
is still resident, and its pin count is still 1. -/
theorem c2_remove_root_leaf_not_emptied :
    (c2run.map BPT.isEmpty = some false) ∧
    (c2run.map (fun t => t.store.pins t.rootPid) = some 1) ∧
    (c2run.map (fun t => (t.store.pages t.rootPid).isSome) = some true) := by
  refine ⟨rfl, rfl, rfl⟩

/-- C3: the claim says coalescing appends every right entry after the left
entries, deletes the right page and decrements the parent's size.  The copy
loop is bounded by the LEFT node's size, so with left size 1 and right size
2 the entry (4,104) is lost and a stale slot is exposed: the merged leaf
(page 1) has size 3 with slot 2 holding the stale pre-split copy (3,103) and
no entry for key 4; the parent's size stays 2; and the right page (page 2)
is still resident because its `DeletePage` ran while the page was pinned. -/
theorem c3_coalesce_diverges :
    ((c3run.bind (fun t => t.store.pages 1)).map
      (fun n => (n.size, n.keys 2, n.vals 2)) = some (3, 3, 103)) ∧
    ((c3run.bind (fun t => t.store.pages 1)).map (fun n => n.findKey 4) = some none) ∧
    ((c3run.bind (fun t => t.store.pages t.rootPid)).map TNode.size = some 2) ∧
    (c3run.map (fun t => (t.store.pages 2).isSome) = some true) := by
  refine ⟨rfl, rfl, rfl, rfl⟩

/-- C4: the claim says every page pinned during an operation is unpinned
before it returns; in particular a `GetValue` miss still unpins the fetched
leaf.  The miss path returns before the `UnpinPage` call: querying absent
key 2 on a single-leaf tree leaves the leaf (page 1) pinned, while the hit
path for key 1 correctly drops the pin back to 0. -/
theorem c4_getvalue_miss_leaks_pin :
    ((c4run.bind (fun t => t.getValue 2 30)).map (fun r => (r.1, r.2.pins 1))
      = some (none, 1)) ∧
    ((c4run.bind (fun t => t.getValue 1 30)).map (fun r => (r.1, r.2.pins 1))
      = some (some 101, 0)) := by
  refine ⟨rfl, rfl⟩

end BusTub
